import Mathlib

/-!
Verification development for a chess rule engine and its computer opponent.

The development shallowly embeds four JavaScript components of the repository:

* `Core`  : the class ChessEngineCore (game state machine and move generator);
* `Sys`   : the class ChessEngineSystem (search layer with minimax over Core);
* `Eng5`  : the class ChessEngine (second rule engine variant);
* `SLE`   : the class StockfishLikeEngine (worker search engine).

JavaScript in-place mutation is modelled by explicit state passing, JavaScript
numbers used as scores (which may be Infinity or -Infinity) by the type
`JsNum`, and the 8 by 8 board by a list of rows of optional pieces, with
out-of-bounds reads returning `none` (the code always bounds-checks before
indexing, so this matches the source behaviour on all reachable inputs).
-/

inductive Color where
  | white
  | black
deriving DecidableEq

inductive PieceType where
  | pawn
  | knight
  | bishop
  | rook
  | queen
  | king
deriving DecidableEq

structure Piece where
  type : PieceType
  color : Color
  hasMoved : Bool
deriving DecidableEq

def Color.opponent : Color → Color
  | .white => .black
  | .black => .white

abbrev Board := List (List (Option Piece))

/-- Bounds test shared by all engines: 0 <= r < 8 and 0 <= c < 8. -/
def inB (r c : Int) : Bool :=
  decide (0 ≤ r ∧ r < 8 ∧ 0 ≤ c ∧ c < 8)

/-- Read a board square; out of bounds yields `none`. -/
def bGet (b : Board) (r c : Int) : Option Piece :=
  if inB r c then ((b.getD r.toNat []).getD c.toNat none) else none

/-- Write a board square; out of bounds leaves the board unchanged. -/
def bSet (b : Board) (r c : Int) (v : Option Piece) : Board :=
  if inB r c then b.set r.toNat ((b.getD r.toNat []).set c.toNat v) else b

/-- The 64 squares in row-major order, as the JS double loops visit them. -/
def allSquares : List (Int × Int) :=
  (List.range 8).flatMap (fun r => (List.range 8).map (fun c => ((r : Int), (c : Int))))

/-- JavaScript numbers as used for scores: an integer-like value or an infinity. -/
inductive JsNum (α : Type) where
  | ninf : JsNum α
  | fin : α → JsNum α
  | pinf : JsNum α
deriving DecidableEq

namespace JsNum

variable {α : Type} [LinearOrder α]

def jle : JsNum α → JsNum α → Bool
  | .ninf, _ => true
  | .fin _, .ninf => false
  | .fin x, .fin y => decide (x ≤ y)
  | .fin _, .pinf => true
  | .pinf, .pinf => true
  | .pinf, _ => false

def jlt (a b : JsNum α) : Bool := !(jle b a)

def jmax (a b : JsNum α) : JsNum α := if jle a b then b else a

def jmin (a b : JsNum α) : JsNum α := if jle a b then a else b

def jneg [Neg α] : JsNum α → JsNum α
  | .ninf => .pinf
  | .fin x => .fin (-x)
  | .pinf => .ninf

end JsNum

namespace Core

/-- A history entry of ChessEngineCore.movePiece: coordinates, snapshots of the
moving and captured pieces, and a full copy of the pre-move board. -/
structure CoreMove where
  fromRow : Int
  fromCol : Int
  toRow : Int
  toCol : Int
  piece : Piece
  captured : Option Piece
  boardState : Board
deriving DecidableEq

/-- The mutable fields of a ChessEngineCore instance (configuration flattened in;
rendering-only fields such as selectedSquare and timing fields are omitted). -/
structure State where
  board : Board
  turn : Color
  moveHistory : List CoreMove
  capturedWhite : List Piece
  capturedBlack : List Piece
  check : Bool
  gameOver : Bool
  lastMove : Option CoreMove
  promotingPawn : Option (Int × Int)
  moveCount : Int
  checksGiven : Int
  castlesPerformed : Int
  enPassantCount : Int
  allowUndo : Bool
  maxMoveHistory : Nat
deriving DecidableEq

/-- capturedPieces[color].push(piece) keyed by the captured piece color. -/
def pushCaptured (s : State) (p : Piece) : State :=
  match p.color with
  | .white => { s with capturedWhite := s.capturedWhite ++ [p] }
  | .black => { s with capturedBlack := s.capturedBlack ++ [p] }

def capturedFor (s : State) (c : Color) : List Piece :=
  match c with
  | .white => s.capturedWhite
  | .black => s.capturedBlack

/-- findKing: first king of the color in row-major order, or none. -/
def findKing (b : Board) (color : Color) : Option (Int × Int) :=
  allSquares.find? (fun rc =>
    match bGet b rc.1 rc.2 with
    | some p => p.type = PieceType.king && p.color = color
    | none => false)

/-- Walk from the square after (fr, fc) toward (tr, tc); false iff a piece sits
strictly between.  The JS while loop runs at most 7 steps on the aligned
squares its callers supply; the fuel only makes that recursion structural. -/
def pathClearAux (b : Board) (dy dx tr tc : Int) : Int → Int → Nat → Bool
  | _, _, 0 => true
  | r, c, fuel + 1 =>
    if r = tr ∧ c = tc then true
    else if (bGet b r c).isSome then false
    else pathClearAux b dy dx tr tc (r + dy) (c + dx) fuel

def isPathClear (b : Board) (fr fc tr tc : Int) : Bool :=
  let dx := Int.sign (tc - fc)
  let dy := Int.sign (tr - fr)
  pathClearAux b dy dx tr tc (fr + dy) (fc + dx) 8

/-- canAttackSquare: piece-relative geometry test plus path clearance. -/
def canAttackSquare (b : Board) (fr fc tr tc : Int) : Bool :=
  match bGet b fr fc with
  | none => false
  | some piece =>
    let dx := tc - fc
    let dy := tr - fr
    match piece.type with
    | .pawn =>
      let dir : Int := if piece.color = Color.white then -1 else 1
      decide (dy = dir ∧ dx.natAbs = 1)
    | .rook => decide (dx = 0 ∨ dy = 0) && isPathClear b fr fc tr tc
    | .bishop => decide (dx.natAbs = dy.natAbs) && isPathClear b fr fc tr tc
    | .queen =>
      decide (dx = 0 ∨ dy = 0 ∨ dx.natAbs = dy.natAbs) && isPathClear b fr fc tr tc
    | .knight =>
      decide ((dx.natAbs = 2 ∧ dy.natAbs = 1) ∨ (dx.natAbs = 1 ∧ dy.natAbs = 2))
    | .king => decide (dx.natAbs ≤ 1 ∧ dy.natAbs ≤ 1 ∧ (dx ≠ 0 ∨ dy ≠ 0))

/-- isSquareAttacked: some piece of the attacking color can attack the square. -/
def isSquareAttacked (b : Board) (row col : Int) (defendingColor : Color) : Bool :=
  let attackingColor := defendingColor.opponent
  allSquares.any (fun rc =>
    match bGet b rc.1 rc.2 with
    | some p => p.color = attackingColor && canAttackSquare b rc.1 rc.2 row col
    | none => false)

/-- isKingInCheck: false when the king is absent (silent fallthrough in the JS). -/
def isKingInCheck (b : Board) (color : Color) : Bool :=
  match findKing b color with
  | none => false
  | some rc => isSquareAttacked b rc.1 rc.2 color

/-- wouldBeInCheck: speculatively relocate the piece (a plain relocation, with
no en passant or castling side effects), test the check, restore.  Modelled on
a scratch board, which matches the JS mutate-then-restore net effect. -/
def wouldBeInCheck (b : Board) (fr fc tr tc : Int) (color : Color) : Bool :=
  let b1 := bSet b tr tc (bGet b fr fc)
  let b2 := bSet b1 fr fc none
  isKingInCheck b2 color

/-- One sliding direction of addDirectionalMoves, fuelled (rays have at most 7
squares, so fuel 8 is never exhausted from an in-bounds start). -/
def rayFrom (b : Board) (opp : Color) : Int → Int → Int → Int → Nat → List (Int × Int)
  | _, _, _, _, 0 => []
  | r, c, dr, dc, fuel + 1 =>
    if inB r c then
      match bGet b r c with
      | none => (r, c) :: rayFrom b opp (r + dr) (c + dc) dr dc fuel
      | some p => if p.color = opp then [(r, c)] else []
    else []

def addDirectionalMoves (b : Board) (opp : Color) (row col dr dc : Int) : List (Int × Int) :=
  rayFrom b opp (row + dr) (col + dc) dr dc 8

/-- calculatePawnMoves: forward push, double push, diagonal captures, en passant. -/
def calculatePawnMoves (s : State) (row col : Int) (color opp : Color) : List (Int × Int) :=
  let dir : Int := if color = Color.white then -1 else 1
  let hm := match bGet s.board row col with
    | some p => p.hasMoved
    | none => true
  let fwd :=
    if inB (row + dir) col ∧ (bGet s.board (row + dir) col).isNone then
      (row + dir, col) ::
        (if (!hm) && inB (row + 2 * dir) col && (bGet s.board (row + 2 * dir) col).isNone then
          [(row + 2 * dir, col)]
        else [])
    else []
  let diag := fun (dc : Int) =>
    let r := row + dir
    let c := col + dc
    if inB r c then
      match bGet s.board r c with
      | some q => if q.color = opp then [(r, c)] else []
      | none =>
        match s.lastMove with
        | some lm =>
          if lm.piece.type = PieceType.pawn ∧ lm.piece.color = opp ∧
              (lm.fromRow - lm.toRow).natAbs = 2 ∧ lm.toRow = row ∧ lm.toCol = c then
            [(r, c)]
          else []
        | none => []
    else []
  fwd ++ diag (-1) ++ diag 1

def knightOffsets : List (Int × Int) :=
  [(-2, -1), (-2, 1), (-1, -2), (-1, 2), (1, -2), (1, 2), (2, -1), (2, 1)]

def calculateKnightMoves (b : Board) (row col : Int) (opp : Color) : List (Int × Int) :=
  knightOffsets.filterMap (fun d =>
    let r := row + d.1
    let c := col + d.2
    if inB r c then
      match bGet b r c with
      | none => some (r, c)
      | some p => if p.color = opp then some (r, c) else none
    else none)

def kingOffsets : List (Int × Int) :=
  [(-1, -1), (-1, 0), (-1, 1), (0, -1), (0, 1), (1, -1), (1, 0), (1, 1)]

/-- calculateCastlingMoves: both castling candidates, guarded as in the JS. -/
def calculateCastlingMoves (s : State) (row col : Int) (color : Color) : List (Int × Int) :=
  let hm := match bGet s.board row col with
    | some p => p.hasMoved
    | none => true
  if hm || isKingInCheck s.board color then []
  else
    let backRank : Int := if color = Color.white then 7 else 0
    if row ≠ backRank then []
    else
      let kingside :=
        match bGet s.board backRank 7 with
        | some rk =>
          if rk.type = PieceType.rook ∧ ¬rk.hasMoved ∧
              (bGet s.board backRank 5).isNone ∧ (bGet s.board backRank 6).isNone ∧
              ¬isSquareAttacked s.board backRank 5 color ∧
              ¬isSquareAttacked s.board backRank 6 color then
            [(backRank, 6)]
          else []
        | none => []
      let queenside :=
        match bGet s.board backRank 0 with
        | some rk =>
          if rk.type = PieceType.rook ∧ ¬rk.hasMoved ∧
              (bGet s.board backRank 1).isNone ∧ (bGet s.board backRank 2).isNone ∧
              (bGet s.board backRank 3).isNone ∧
              ¬isSquareAttacked s.board backRank 2 color ∧
              ¬isSquareAttacked s.board backRank 3 color then
            [(backRank, 2)]
          else []
        | none => []
      kingside ++ queenside

def calculateKingMoves (s : State) (row col : Int) (color opp : Color) : List (Int × Int) :=
  (kingOffsets.filterMap (fun d =>
    let r := row + d.1
    let c := col + d.2
    if inB r c then
      match bGet s.board r c with
      | none => some (r, c)
      | some p => if p.color = opp then some (r, c) else none
    else none)) ++ calculateCastlingMoves s row col color

/-- calculatePossibleMoves: pseudo-legal generation per piece type, then the
legality filter through wouldBeInCheck. -/
def calculatePossibleMoves (s : State) (row col : Int) : List (Int × Int) :=
  match bGet s.board row col with
  | none => []
  | some piece =>
    if piece.color ≠ s.turn then []
    else
      let opp := piece.color.opponent
      let raw :=
        match piece.type with
        | .pawn => calculatePawnMoves s row col piece.color opp
        | .rook =>
          addDirectionalMoves s.board opp row col (-1) 0 ++
          addDirectionalMoves s.board opp row col 1 0 ++
          addDirectionalMoves s.board opp row col 0 (-1) ++
          addDirectionalMoves s.board opp row col 0 1
        | .bishop =>
          addDirectionalMoves s.board opp row col (-1) (-1) ++
          addDirectionalMoves s.board opp row col (-1) 1 ++
          addDirectionalMoves s.board opp row col 1 (-1) ++
          addDirectionalMoves s.board opp row col 1 1
        | .queen =>
          [((-1 : Int), (0 : Int)), (1, 0), (0, -1), (0, 1),
           (-1, -1), (-1, 1), (1, -1), (1, 1)].flatMap
            (fun d => addDirectionalMoves s.board opp row col d.1 d.2)
        | .knight => calculateKnightMoves s.board row col opp
        | .king => calculateKingMoves s row col piece.color opp
      raw.filter (fun rc => ¬wouldBeInCheck s.board row col rc.1 rc.2 piece.color)

/-- hasNoLegalMoves: no piece of the side to move has any legal move. -/
def hasNoLegalMoves (s : State) : Bool :=
  allSquares.all (fun rc =>
    match bGet s.board rc.1 rc.2 with
    | some p =>
      if p.color = s.turn then (calculatePossibleMoves s rc.1 rc.2).isEmpty else true
    | none => true)

def isCheckmate (s : State) : Bool :=
  if ¬s.check then false else hasNoLegalMoves s

def isStalemate (s : State) : Bool :=
  if s.check then false else hasNoLegalMoves s

inductive MoveResult where
  | invalid
  | valid
  | castle
  | promotion
deriving DecidableEq

/-- executeCastling: move the king, then relocate the rook. -/
def executeCastling (s : State) (fr fc tr tc : Int) : State :=
  let isKingside := decide (fc < tc)
  let rookFromCol : Int := if isKingside then 7 else 0
  let rookToCol : Int := if isKingside then 5 else 3
  let b1 := bSet s.board tr tc (bGet s.board fr fc)
  let b2 := bSet b1 fr fc none
  let b3 := bSet b2 tr rookToCol (bGet b2 fr rookFromCol)
  let b4 := bSet b3 fr rookFromCol none
  { s with board := b4, castlesPerformed := s.castlesPerformed + 1 }

/-- executeEnPassant: move the pawn, then remove and record the captured pawn.
The captured square is read after the pawn moved, as the JS does; it is
distinct from both the origin and the destination, so the value is the same. -/
def executeEnPassant (s : State) (fr fc tr tc : Int) : State :=
  let b1 := bSet s.board tr tc (bGet s.board fr fc)
  let b2 := bSet b1 fr fc none
  match bGet b2 fr tc with
  | some capturedPawn =>
    let s1 := pushCaptured { s with board := b2 } capturedPawn
    { s1 with board := bSet s1.board fr tc none,
              enPassantCount := s1.enPassantCount + 1 }
  | none =>
    -- unreachable for generated en passant moves: the captured pawn is present
    { s with board := bSet b2 fr tc none, enPassantCount := s.enPassantCount + 1 }

/-- board[toRow][toCol].hasMoved = true on the current board. -/
def setHasMoved (b : Board) (r c : Int) : Board :=
  match bGet b r c with
  | some p => bSet b r c (some { p with hasMoved := true })
  | none => b

/-- movePiece: validate, execute (castling, en passant, or plain move with
capture), flag promotion, push history with FIFO eviction, flip the turn,
recompute the check flag and the game-over flag. -/
def movePiece (s : State) (fr fc tr tc : Int) : State × MoveResult :=
  match bGet s.board fr fc with
  | none => (s, .invalid)
  | some piece =>
    if piece.color ≠ s.turn then (s, .invalid)
    else if (tr, tc) ∉ calculatePossibleMoves s fr fc then (s, .invalid)
    else
      let moveData : CoreMove :=
        { fromRow := fr, fromCol := fc, toRow := tr, toCol := tc,
          piece := piece, captured := bGet s.board tr tc, boardState := s.board }
      let s1res :=
        if piece.type = PieceType.king ∧ (tc - fc).natAbs = 2 then
          (executeCastling s fr fc tr tc, MoveResult.castle)
        else if piece.type = PieceType.pawn ∧ (bGet s.board tr tc).isNone ∧ fc ≠ tc then
          (executeEnPassant s fr fc tr tc, MoveResult.valid)
        else
          let s0 :=
            match bGet s.board tr tc with
            | some cap => pushCaptured s cap
            | none => s
          ({ s0 with board := bSet (bSet s0.board tr tc (some piece)) fr fc none },
            MoveResult.valid)
      let s2 := { s1res.1 with board := setHasMoved s1res.1.board tr tc }
      let s3res :=
        if piece.type = PieceType.pawn ∧ (tr = 0 ∨ tr = 7) then
          ({ s2 with promotingPawn := some (tr, tc) }, MoveResult.promotion)
        else (s2, s1res.2)
      let s3 := s3res.1
      let hist := s3.moveHistory ++ [moveData]
      let hist2 :=
        if (s3.maxMoveHistory != 0) && (s3.maxMoveHistory < hist.length) then hist.tail else hist
      let s4 := { s3 with lastMove := some moveData, moveHistory := hist2,
                          moveCount := s3.moveCount + 1, turn := s3.turn.opponent }
      let chk := isKingInCheck s4.board s4.turn
      let s5 := { s4 with check := chk,
                          checksGiven := if chk then s4.checksGiven + 1 else s4.checksGiven }
      let s6 := { s5 with gameOver := isCheckmate s5 || isStalemate s5 }
      (s6, s3res.2)

/-- completePromotion: replace the promoting pawn by the requested piece type.
It does not flip the turn and does not recompute any status flag. -/
def completePromotion (s : State) (pieceType : PieceType) : State :=
  match s.promotingPawn with
  | none => s
  | some rc =>
    match bGet s.board rc.1 rc.2 with
    | some p =>
      { s with board := bSet s.board rc.1 rc.2 (some ⟨pieceType, p.color, true⟩),
               promotingPawn := none }
    | none =>
      -- unreachable: promotingPawn always points at the promoted pawn
      { s with promotingPawn := none }

/-- Remove the first ledger entry matching the captured piece, as the JS
findIndex plus splice does; the ledger is untouched when no entry matches. -/
def removeFirstCaptured (s : State) (cap : Piece) : State :=
  match cap.color with
  | .white =>
    { s with capturedWhite :=
        s.capturedWhite.eraseP (fun p => p.type = cap.type && p.color = cap.color) }
  | .black =>
    { s with capturedBlack :=
        s.capturedBlack.eraseP (fun p => p.type = cap.type && p.color = cap.color) }

/-- undoMove: pop the most recent history entry and restore the saved board
copy, fix the ledger, flip the turn back, recompute check, clear game over. -/
def undoMove (s : State) : State × Bool :=
  if ¬s.allowUndo ∨ s.moveHistory = [] then (s, false)
  else
    match s.moveHistory.getLast? with
    | none => (s, false)
    | some lm =>
      let hist := s.moveHistory.dropLast
      let s1 := { s with moveHistory := hist, board := lm.boardState }
      let s2 :=
        match lm.captured with
        | some cap => removeFirstCaptured s1 cap
        | none => s1
      let s3 := { s2 with turn := s2.turn.opponent }
      let s4 := { s3 with check := isKingInCheck s3.board s3.turn, gameOver := false,
                          moveCount := s3.moveCount - 1, lastMove := hist.getLast? }
      (s4, true)

end Core

/-- The five playing personalities shared by the AI layers. -/
inductive Personality where
  | balanced
  | aggressive
  | defensive
  | positional
  | tactical
deriving DecidableEq

namespace Sys

/-- Configuration of a ChessEngineSystem instance as far as evaluation goes. -/
structure SysCfg where
  personality : Personality

structure Weights where
  attack : ℚ
  defense : ℚ
  development : ℚ
  center : ℚ

def getPersonalityWeights : Personality → Weights
  | .balanced => ⟨1, 1, 1, 1⟩
  | .aggressive => ⟨15/10, 7/10, 12/10, 11/10⟩
  | .defensive => ⟨8/10, 14/10, 9/10, 1⟩
  | .positional => ⟨9/10, 11/10, 13/10, 14/10⟩
  | .tactical => ⟨13/10, 9/10, 1, 12/10⟩

def pieceValues : PieceType → Int
  | .pawn => 100
  | .knight => 320
  | .bishop => 330
  | .rook => 500
  | .queen => 900
  | .king => 20000

def pawnTable : List (List Int) :=
  [[0, 0, 0, 0, 0, 0, 0, 0],
   [50, 50, 50, 50, 50, 50, 50, 50],
   [10, 10, 20, 30, 30, 20, 10, 10],
   [5, 5, 10, 25, 25, 10, 5, 5],
   [0, 0, 0, 20, 20, 0, 0, 0],
   [5, -5, -10, 0, 0, -10, -5, 5],
   [5, 10, 10, -20, -20, 10, 10, 5],
   [0, 0, 0, 0, 0, 0, 0, 0]]

def knightTable : List (List Int) :=
  [[-50, -40, -30, -30, -30, -30, -40, -50],
   [-40, -20, 0, 0, 0, 0, -20, -40],
   [-30, 0, 10, 15, 15, 10, 0, -30],
   [-30, 5, 15, 20, 20, 15, 5, -30],
   [-30, 0, 15, 20, 20, 15, 0, -30],
   [-30, 5, 10, 15, 15, 10, 5, -30],
   [-40, -20, 0, 5, 5, 0, -20, -40],
   [-50, -40, -30, -30, -30, -30, -40, -50]]

def bishopTable : List (List Int) :=
  [[-20, -10, -10, -10, -10, -10, -10, -20],
   [-10, 0, 0, 0, 0, 0, 0, -10],
   [-10, 0, 5, 10, 10, 5, 0, -10],
   [-10, 5, 5, 10, 10, 5, 5, -10],
   [-10, 0, 10, 10, 10, 10, 0, -10],
   [-10, 10, 10, 10, 10, 10, 10, -10],
   [-10, 5, 0, 0, 0, 0, 5, -10],
   [-20, -10, -10, -10, -10, -10, -10, -20]]

def rookTable : List (List Int) :=
  [[0, 0, 0, 0, 0, 0, 0, 0],
   [5, 10, 10, 10, 10, 10, 10, 5],
   [-5, 0, 0, 0, 0, 0, 0, -5],
   [-5, 0, 0, 0, 0, 0, 0, -5],
   [-5, 0, 0, 0, 0, 0, 0, -5],
   [-5, 0, 0, 0, 0, 0, 0, -5],
   [-5, 0, 0, 0, 0, 0, 0, -5],
   [0, 0, 0, 5, 5, 0, 0, 0]]

def queenTable : List (List Int) :=
  [[-20, -10, -10, -5, -5, -10, -10, -20],
   [-10, 0, 0, 0, 0, 0, 0, -10],
   [-10, 0, 5, 5, 5, 5, 0, -10],
   [-5, 0, 5, 5, 5, 5, 0, -5],
   [0, 0, 5, 5, 5, 5, 0, -5],
   [-10, 5, 5, 5, 5, 5, 0, -10],
   [-10, 0, 5, 0, 0, 0, 0, -10],
   [-20, -10, -10, -5, -5, -10, -10, -20]]

def kingTable : List (List Int) :=
  [[-30, -40, -40, -50, -50, -40, -40, -30],
   [-30, -40, -40, -50, -50, -40, -40, -30],
   [-30, -40, -40, -50, -50, -40, -40, -30],
   [-30, -40, -40, -50, -50, -40, -40, -30],
   [-20, -30, -30, -40, -40, -30, -30, -20],
   [-10, -20, -20, -20, -20, -20, -20, -10],
   [20, 20, 0, 0, 0, 0, 20, 20],
   [20, 30, 10, 0, 0, 10, 30, 20]]

/-- Table lookup at integer coordinates; callers stay in range. -/
def tGet (t : List (List Int)) (r c : Int) : Int :=
  (t.getD r.toNat []).getD c.toNat 0

def getPieceSquareValue (p : Piece) (row col : Int) : Int :=
  let r : Int := if p.color = Color.white then row else 7 - row
  match p.type with
  | .pawn => tGet pawnTable r col
  | .knight => tGet knightTable r col
  | .bishop => tGet bishopTable r col
  | .rook => tGet rookTable r col
  | .queen => tGet queenTable r col
  | .king => tGet kingTable r col

/-- findKing of the System layer: first matching square with its piece. -/
def findKingP (s : Core.State) (color : Color) : Option ((Int × Int) × Piece) :=
  allSquares.findSome? (fun rc =>
    match bGet s.board rc.1 rc.2 with
    | some p =>
      if p.type = PieceType.king ∧ p.color = color then some (rc, p) else none
    | none => none)

def findPieces (s : Core.State) (t : PieceType) (color : Color) : List ((Int × Int) × Piece) :=
  allSquares.filterMap (fun rc =>
    match bGet s.board rc.1 rc.2 with
    | some p => if p.type = t ∧ p.color = color then some (rc, p) else none
    | none => none)

def evaluateMaterial (s : Core.State) (forColor : Color) : Int :=
  (allSquares.map (fun rc =>
    match bGet s.board rc.1 rc.2 with
    | some p =>
      if p.color = forColor then pieceValues p.type else -pieceValues p.type
    | none => 0)).sum

def evaluatePositionInternal (cfg : SysCfg) (s : Core.State) (forColor : Color) : ℚ :=
  (((allSquares.map (fun rc =>
    match bGet s.board rc.1 rc.2 with
    | some p =>
      let v := getPieceSquareValue p rc.1 rc.2
      if p.color = forColor then v else -v
    | none => 0)).sum : Int) : ℚ) * (getPersonalityWeights cfg.personality).development

def evaluateKingSafety (cfg : SysCfg) (s : Core.State) (forColor : Color) : ℚ :=
  match findKingP s forColor, findKingP s forColor.opponent with
  | some k, some _ =>
    let safety : ℚ :=
      if Core.isKingInCheck s.board forColor then
        -(50 * (getPersonalityWeights cfg.personality).defense)
      else 0
    if k.2.hasMoved = false then safety + 20 else safety
  | _, _ => 0

def evaluatePawnStructure (s : Core.State) (forColor : Color) : Int :=
  let pawns := findPieces s .pawn forColor
  let doubled :=
    ((List.range 8).map (fun f =>
      let cnt := (pawns.filter (fun pw => pw.1.2 = (f : Int))).length
      if 1 < cnt then ((cnt : Int) - 1) * 10 else 0)).sum
  let isolated :=
    (pawns.map (fun pw =>
      if pawns.any (fun q => (q.1.2 - pw.1.2).natAbs = 1) then 0 else (15 : Int))).sum
  (0 : Int) - doubled - isolated

def evaluateMobility (s : Core.State) (forColor : Color) : Int :=
  let sTurn := { s with turn := forColor }
  ((allSquares.map (fun rc =>
    match bGet s.board rc.1 rc.2 with
    | some p =>
      if p.color = forColor then
        ((Core.calculatePossibleMoves sTurn rc.1 rc.2).length : Int)
      else 0
    | none => 0)).sum) * 2

def getPersonalityMultiplier (cfg : SysCfg) (s : Core.State) (forColor : Color) : ℚ :=
  if cfg.personality = Personality.aggressive then
    match findKingP s forColor.opponent with
    | some ok => if Core.isKingInCheck s.board ok.2.color then 12/10 else 1
    | none => 1
  else 1

def evaluatePosition (cfg : SysCfg) (s : Core.State) (forColor : Color) : ℚ :=
  ((evaluateMaterial s forColor : ℚ)
    + evaluatePositionInternal cfg s forColor
    + evaluateKingSafety cfg s forColor
    + (evaluatePawnStructure s forColor : ℚ)
    + (evaluateMobility s forColor : ℚ))
  * getPersonalityMultiplier cfg s forColor

structure SysMove where
  fromR : Int
  fromC : Int
  toR : Int
  toC : Int
deriving DecidableEq

/-- The originalState record saved by the System-layer makeMove. -/
structure SysUndo where
  piece : Piece
  captured : Option Piece
  turn : Color
  lastMove : Option Core.CoreMove
  check : Bool
deriving DecidableEq

/-- System-layer makeMove: plain relocation (no special-move effects), turn
flip, check recompute; fails exactly when the origin square is empty. -/
def makeMove (s : Core.State) (m : SysMove) : Core.State × Option SysUndo :=
  match bGet s.board m.fromR m.fromC with
  | none => (s, none)
  | some piece =>
    let captured := bGet s.board m.toR m.toC
    let orig : SysUndo := ⟨piece, captured, s.turn, s.lastMove, s.check⟩
    let b1 := bSet s.board m.toR m.toC (some { piece with hasMoved := true })
    let b2 := bSet b1 m.fromR m.fromC none
    let s1 := { s with board := b2, turn := s.turn.opponent }
    ({ s1 with check := Core.isKingInCheck s1.board s1.turn }, some orig)

/-- System-layer undoMove: write back the saved piece and captured snapshots
and the saved turn, lastMove and check fields. -/
def undoMove (s : Core.State) (m : SysMove) (u : SysUndo) : Core.State :=
  let b1 := bSet s.board m.fromR m.fromC (some u.piece)
  let b2 := bSet b1 m.toR m.toC u.captured
  let b3 :=
    match bGet b2 m.fromR m.fromC with
    | some p => bSet b2 m.fromR m.fromC (some { p with hasMoved := u.piece.hasMoved })
    | none => b2
  { s with board := b3, turn := u.turn, lastMove := u.lastMove, check := u.check }

def getAllPossibleMoves (s : Core.State) (color : Color) : List SysMove :=
  allSquares.flatMap (fun rc =>
    match bGet s.board rc.1 rc.2 with
    | some p =>
      if p.color = color then
        (Core.calculatePossibleMoves s rc.1 rc.2).map (fun t => ⟨rc.1, rc.2, t.1, t.2⟩)
      else []
    | none => [])

/-- The maximizing loop body of minimax.  The in-place make and unmake pair of
the JS is modelled by scoring the made state and continuing from the original
state, which is justified by the exact-restoration theorem proved below. -/
def mmaxLoop (rec : Core.State → JsNum ℚ → JsNum ℚ → JsNum ℚ) (s : Core.State)
    (beta : JsNum ℚ) : List SysMove → JsNum ℚ → JsNum ℚ → JsNum ℚ
  | [], maxEval, _ => maxEval
  | m :: rest, maxEval, alpha =>
    match makeMove s m with
    | (_, none) => mmaxLoop rec s beta rest maxEval alpha
    | (s1, some _) =>
      let ev := rec s1 alpha beta
      let maxEval1 := maxEval.jmax ev
      let alpha1 := alpha.jmax ev
      if beta.jle alpha1 then maxEval1 else mmaxLoop rec s beta rest maxEval1 alpha1

def mminLoop (rec : Core.State → JsNum ℚ → JsNum ℚ → JsNum ℚ) (s : Core.State)
    (alpha : JsNum ℚ) : List SysMove → JsNum ℚ → JsNum ℚ → JsNum ℚ
  | [], minEval, _ => minEval
  | m :: rest, minEval, beta =>
    match makeMove s m with
    | (_, none) => mminLoop rec s alpha rest minEval beta
    | (s1, some _) =>
      let ev := rec s1 alpha beta
      let minEval1 := minEval.jmin ev
      let beta1 := beta.jmin ev
      if beta1.jle alpha then minEval1 else mminLoop rec s alpha rest minEval1 beta1

/-- minimax with alpha-beta pruning over the System-layer make and unmake. -/
def minimax (cfg : SysCfg) (d : Nat) (s : Core.State) (isMax : Bool)
    (alpha beta : JsNum ℚ) : JsNum ℚ :=
  match d with
  | 0 => .fin (evaluatePosition cfg s (if isMax then Color.white else Color.black))
  | depth + 1 =>
    if s.gameOver then
      .fin (evaluatePosition cfg s (if isMax then Color.white else Color.black))
    else
      let color := if isMax then Color.white else Color.black
      let allMoves := getAllPossibleMoves s color
      if isMax then
        mmaxLoop (fun s1 a b => minimax cfg depth s1 false a b) s beta allMoves .ninf alpha
      else
        mminLoop (fun s1 a b => minimax cfg depth s1 true a b) s alpha allMoves .pinf beta
termination_by structural d

/-- Score of one root move: minimax on the made state with a full window. -/
def moveScore (cfg : SysCfg) (s : Core.State) (color : Color) (depth : Nat)
    (m : SysMove) : JsNum ℚ :=
  minimax cfg (depth - 1) (makeMove s m).1 (!decide (color = Color.white)) .ninf .pinf

/-- The getBestMoveMinMax loop over an explicitly given move order. -/
def rootLoop (cfg : SysCfg) (depth : Nat) (isMax : Bool) (s : Core.State) :
    List SysMove → Option SysMove → JsNum ℚ → Option SysMove × JsNum ℚ
  | [], bm, bs => (bm, bs)
  | m :: rest, bm, bs =>
    match makeMove s m with
    | (_, none) => rootLoop cfg depth isMax s rest bm bs
    | (s1, some _) =>
      let score := minimax cfg (depth - 1) s1 (!isMax) .ninf .pinf
      if (if isMax then bs.jlt score else score.jlt bs) then
        rootLoop cfg depth isMax s rest (some m) score
      else rootLoop cfg depth isMax s rest bm bs

/-- getBestMoveMinMax, parameterised by the traversal order of the move list
(the JS shuffles the generated list in place before this loop; the shuffle is
the only randomness, so it is made an explicit input). -/
def getBestMoveMinMaxL (cfg : SysCfg) (s : Core.State) (color : Color) (depth : Nat)
    (l : List SysMove) : Option SysMove :=
  let isMax := decide (color = Color.white)
  let r := rootLoop cfg depth isMax s l none (if isMax then .ninf else .pinf)
  r.1 <|> l.head?

/-- The best score computed by the getBestMoveMinMax loop. -/
def rootBestScore (cfg : SysCfg) (s : Core.State) (color : Color) (depth : Nat)
    (l : List SysMove) : JsNum ℚ :=
  let isMax := decide (color = Color.white)
  (rootLoop cfg depth isMax s l none (if isMax then .ninf else .pinf)).2

end Sys

namespace Eng5

/-- A history entry of the part_005 ChessEngine movePiece. -/
structure Move5 where
  fromRow : Int
  fromCol : Int
  toRow : Int
  toCol : Int
  piece : Piece
  captured : Option Piece
  promotion : Bool
  castling : Option (Bool × Int × Int)
  enPassant : Bool
deriving DecidableEq

/-- The mutable fields of a part_005 ChessEngine instance. -/
structure State5 where
  board : Board
  turn : Color
  moveHistory : List Move5
  capturedWhite : List Piece
  capturedBlack : List Piece
  check : Bool
  gameOver : Bool
  lastMove : Option Move5
  promotingPawn : Option (Int × Int)
  moveCount : Int
  checksGiven : Int
  castlesPerformed : Int
  enPassantCount : Int
deriving DecidableEq

/-- capturedPieces[this.turn].push(piece): this engine keys the ledger by the
capturing side. -/
def pushCaptured5 (g : State5) (turnColor : Color) (p : Piece) : State5 :=
  match turnColor with
  | .white => { g with capturedWhite := g.capturedWhite ++ [p] }
  | .black => { g with capturedBlack := g.capturedBlack ++ [p] }

def knightOffsets5 : List (Int × Int) :=
  [(2, 1), (2, -1), (-2, 1), (-2, -1), (1, 2), (1, -2), (-1, 2), (-1, -2)]

/-- The nine-square neighbourhood scan order of the king loops (row-major,
centre square skipped). -/
def kingNeighbors5 (row col : Int) : List (Int × Int) :=
  [(row - 1, col - 1), (row - 1, col), (row - 1, col + 1),
   (row, col - 1), (row, col + 1),
   (row + 1, col - 1), (row + 1, col), (row + 1, col + 1)]

/-- calculateRawMoves: attack squares used by isSquareAttacked.  Pawns list
both diagonal squares, knights and kings list all in-bounds target squares,
sliders reuse the addDirectionalMoves closure. -/
def calculateRawMoves (b : Board) (row col : Int) : List (Int × Int) :=
  match bGet b row col with
  | none => []
  | some piece =>
    let opp := piece.color.opponent
    match piece.type with
    | .pawn =>
      let dir : Int := if piece.color = Color.white then -1 else 1
      ((if inB (row + dir) (col - 1) then [(row + dir, col - 1)] else []) ++
       (if inB (row + dir) (col + 1) then [(row + dir, col + 1)] else []))
    | .rook =>
      [((1 : Int), (0 : Int)), (-1, 0), (0, 1), (0, -1)].flatMap
        (fun d => Core.addDirectionalMoves b opp row col d.1 d.2)
    | .knight =>
      knightOffsets5.filterMap (fun d =>
        let r := row + d.1
        let c := col + d.2
        if inB r c then some (r, c) else none)
    | .bishop =>
      [((1 : Int), (1 : Int)), (1, -1), (-1, 1), (-1, -1)].flatMap
        (fun d => Core.addDirectionalMoves b opp row col d.1 d.2)
    | .queen =>
      [((1 : Int), (0 : Int)), (-1, 0), (0, 1), (0, -1), (1, 1), (1, -1), (-1, 1), (-1, -1)].flatMap
        (fun d => Core.addDirectionalMoves b opp row col d.1 d.2)
    | .king =>
      (kingNeighbors5 row col).filterMap (fun rc => if inB rc.1 rc.2 then some rc else none)

/-- isSquareAttacked of part_005: the attacker color is passed explicitly and
attacks are raw moves. -/
def isSquareAttacked5 (b : Board) (row col : Int) (attackerColor : Color) : Bool :=
  allSquares.any (fun rc =>
    match bGet b rc.1 rc.2 with
    | some p => p.color = attackerColor && (calculateRawMoves b rc.1 rc.2).contains (row, col)
    | none => false)

/-- isKingInCheck of part_005: the row-major king scan; with no king on the
board the JS compares squares against undefined and gets false everywhere. -/
def isKingInCheck5 (b : Board) (color : Color) : Bool :=
  match Core.findKing b color with
  | none => false
  | some rc => isSquareAttacked5 b rc.1 rc.2 color.opponent

/-- The legality filter of part_005 calculatePossibleMoves: speculative plain
relocation on a scratch board, then the raw-move-based check test. -/
def wouldLeaveKingInCheck5 (b : Board) (row col tr tc : Int) (color : Color) : Bool :=
  let b1 := bSet b tr tc (bGet b row col)
  let b2 := bSet b1 row col none
  isKingInCheck5 b2 color

/-- calculatePossibleMoves of part_005: per-type pseudo-legal generation (no
side-to-move guard), then the legality filter. -/
def calculatePossibleMoves5 (g : State5) (row col : Int) : List (Int × Int) :=
  match bGet g.board row col with
  | none => []
  | some piece =>
    let color := piece.color
    let opp := color.opponent
    let raw :=
      match piece.type with
      | .pawn =>
        let dir : Int := if color = Color.white then -1 else 1
        let fwd :=
          if inB (row + dir) col ∧ (bGet g.board (row + dir) col).isNone then
            (row + dir, col) ::
              (if (!piece.hasMoved) && inB (row + 2 * dir) col &&
                  (bGet g.board (row + 2 * dir) col).isNone then
                [(row + 2 * dir, col)]
              else [])
          else []
        let diag := fun (dc : Int) =>
          let r := row + dir
          let c := col + dc
          if inB r c then
            match bGet g.board r c with
            | some q => if q.color = opp then [(r, c)] else []
            | none =>
              match g.lastMove with
              | some lm =>
                if lm.piece.type = PieceType.pawn ∧ lm.piece.color = opp ∧
                    (lm.fromRow - lm.toRow).natAbs = 2 ∧ lm.toRow = row ∧ lm.toCol = c then
                  [(r, c)]
                else []
              | none => []
          else []
        fwd ++ diag (-1) ++ diag 1
      | .rook =>
        [((1 : Int), (0 : Int)), (-1, 0), (0, 1), (0, -1)].flatMap
          (fun d => Core.addDirectionalMoves g.board opp row col d.1 d.2)
      | .knight =>
        knightOffsets5.filterMap (fun (d : Int × Int) =>
          let r := row + d.1
          let c := col + d.2
          if inB r c then
            match bGet g.board r c with
            | none => some (r, c)
            | some p => if p.color = opp then some (r, c) else none
          else none)
      | .bishop =>
        [((1 : Int), (1 : Int)), (1, -1), (-1, 1), (-1, -1)].flatMap
          (fun d => Core.addDirectionalMoves g.board opp row col d.1 d.2)
      | .queen =>
        [((1 : Int), (0 : Int)), (-1, 0), (0, 1), (0, -1), (1, 1), (1, -1), (-1, 1), (-1, -1)].flatMap
          (fun d => Core.addDirectionalMoves g.board opp row col d.1 d.2)
      | .king =>
        let steps :=
          (kingNeighbors5 row col).filterMap (fun (rc : Int × Int) =>
            if inB rc.1 rc.2 then
              match bGet g.board rc.1 rc.2 with
              | none => some rc
              | some p => if p.color = opp then some rc else none
            else none)
        let castles :=
          if (!piece.hasMoved) && !isKingInCheck5 g.board color then
            (match bGet g.board row 7 with
             | some rk =>
               if rk.type = PieceType.rook ∧ ¬rk.hasMoved ∧
                   (bGet g.board row 5).isNone ∧ (bGet g.board row 6).isNone ∧
                   ¬isSquareAttacked5 g.board row 5 opp ∧
                   ¬isSquareAttacked5 g.board row 6 opp then
                 [(row, (6 : Int))]
               else []
             | none => []) ++
            (match bGet g.board row 0 with
             | some rk =>
               if rk.type = PieceType.rook ∧ ¬rk.hasMoved ∧
                   (bGet g.board row 1).isNone ∧ (bGet g.board row 2).isNone ∧
                   (bGet g.board row 3).isNone ∧
                   ¬isSquareAttacked5 g.board row 2 opp ∧
                   ¬isSquareAttacked5 g.board row 3 opp then
                 [(row, (2 : Int))]
               else []
             | none => [])
          else []
        steps ++ castles
    raw.filter (fun rc => !wouldLeaveKingInCheck5 g.board row col rc.1 rc.2 color)

def switchTurns (g : State5) : State5 :=
  { g with turn := g.turn.opponent }

/-- checkGameStatus: recompute the check flag and, when the side to move has
no legal move, set game over.  The status message returned by the JS is
ignored by the callers modelled here. -/
def checkGameStatus (g : State5) : State5 :=
  let inCheck := isKingInCheck5 g.board g.turn
  let g1 := { g with checksGiven := if inCheck then g.checksGiven + 1 else g.checksGiven,
                     check := inCheck }
  let hasLegal := allSquares.any (fun rc =>
    match bGet g1.board rc.1 rc.2 with
    | some p => p.color = g1.turn && !(calculatePossibleMoves5 g1 rc.1 rc.2).isEmpty
    | none => false)
  if !hasLegal then { g1 with gameOver := true } else g1

inductive Res5 where
  | invalid
  | promotion
  | normal
deriving DecidableEq

/-- movePiece of part_005: execute the move (no membership validation), then
either enter the promotion-pending sub-state without flipping the turn, or
flip the turn and recompute the status. -/
def movePiece5 (g : State5) (fr fc tr tc : Int) : State5 × Res5 :=
  match bGet g.board fr fc with
  | none => (g, .invalid)
  | some piece =>
    let isPawnPromotion := piece.type = PieceType.pawn ∧
      ((piece.color = Color.white ∧ tr = 0) ∨ (piece.color = Color.black ∧ tr = 7))
    let captured :=
      match bGet g.board tr tc with
      | some cap => some cap
      | none =>
        if piece.type = PieceType.pawn ∧ fc ≠ tc then bGet g.board fr tc else none
    let move0 : Move5 :=
      { fromRow := fr, fromCol := fc, toRow := tr, toCol := tc, piece := piece,
        captured := captured, promotion := decide isPawnPromotion, castling := none,
        enPassant := false }
    let gm1 : State5 × Move5 :=
      match bGet g.board tr tc with
      | some cap => (pushCaptured5 g g.turn cap, move0)
      | none =>
        if piece.type = PieceType.pawn ∧ fc ≠ tc then
          let g1 :=
            match bGet g.board fr tc with
            | some cap => pushCaptured5 g g.turn cap
            | none => g
          ({ g1 with board := bSet g1.board fr tc none,
                     enPassantCount := g1.enPassantCount + 1 },
           { move0 with enPassant := true })
        else (g, move0)
    let gm2 : State5 × Move5 :=
      if piece.type = PieceType.king ∧ (tc - fc).natAbs = 2 then
        let g1 := gm1.1
        let isKingside := decide (fc < tc)
        let rookFromCol : Int := if isKingside then 7 else 0
        let rookToCol : Int := if isKingside then 5 else 3
        let rook :=
          match bGet g1.board tr rookFromCol with
          | some rk => some { rk with hasMoved := true }
          | none => none
        let b1 := bSet g1.board tr rookToCol rook
        let b2 := bSet b1 tr rookFromCol none
        ({ g1 with board := b2, castlesPerformed := g1.castlesPerformed + 1 },
         { gm1.2 with castling := some (isKingside, rookFromCol, rookToCol) })
      else gm1
    let g2 := gm2.1
    let pieceFinal :=
      if piece.type = PieceType.pawn ∨ piece.type = PieceType.rook ∨
          piece.type = PieceType.king then
        { piece with hasMoved := true }
      else piece
    let b3 := bSet (bSet g2.board tr tc (some pieceFinal)) fr fc none
    let g3 := { g2 with board := b3, lastMove := some gm2.2,
                        moveHistory := g2.moveHistory ++ [gm2.2],
                        moveCount := g2.moveCount + 1 }
    if isPawnPromotion then
      ({ g3 with promotingPawn := some (tr, tc) }, .promotion)
    else
      (checkGameStatus (switchTurns g3), .normal)

/-- completePromotion of part_005: with a pending promotion, overwrite the
pawn type with the requested type (no validation of the type), clear the
pending state, flip the turn and recompute the status; otherwise return with
no state change at all. -/
def completePromotion5 (g : State5) (pieceType : PieceType) : State5 :=
  match g.promotingPawn with
  | none => g
  | some rc =>
    let b :=
      match bGet g.board rc.1 rc.2 with
      | some p => bSet g.board rc.1 rc.2 (some { p with type := pieceType })
      | none => g.board
    checkGameStatus (switchTurns { g with board := b, promotingPawn := none })

end Eng5

namespace Cai

/-- Configuration of a GAMEOPT ChessAI instance.  The pseudo-random draws of
the tactical positional bonus (one draw of Math.random per visited piece) are
modelled as an explicit per-square source. -/
structure CaiCfg where
  personality : Personality
  rand : Int → Int → ℚ

def pieceValues : PieceType → Int
  | .pawn => 100
  | .knight => 320
  | .bishop => 330
  | .rook => 500
  | .queen => 900
  | .king => 20000

/-- getPositionalBonus: personality-dependent geometric bonus in fractional
centipawns (the JS uses floating point literals such as 3.5 and 1.5). -/
def getPositionalBonus (ai : CaiCfg) (p : Piece) (row col : Int) (color : Color) : ℚ :=
  let multiplier : ℚ := if p.color = color then 1 else -1
  match ai.personality with
  | .aggressive =>
    if p.type ≠ PieceType.king then
      let opponentKingRow : ℚ := if p.color = Color.white then 0 else 7
      let distance := |(row : ℚ) - opponentKingRow| + |(col : ℚ) - 35/10|
      (14 - distance) * 2 * multiplier
    else 0
  | .defensive =>
    if p.type ≠ PieceType.king then
      let myKingRow : ℚ := if p.color = Color.white then 7 else 0
      let distance := |(row : ℚ) - myKingRow| + |(col : ℚ) - 35/10|
      (7 - distance) * (15/10) * multiplier
    else 0
  | .positional =>
    if p.type = PieceType.pawn then
      let centerDistance := |(row : ℚ) - 35/10| + |(col : ℚ) - 35/10|
      (7 - centerDistance) * 5 * multiplier
    else if p.type = PieceType.knight ∨ p.type = PieceType.bishop then
      let centerDistance := |(row : ℚ) - 35/10| + |(col : ℚ) - 35/10|
      (7 - centerDistance) * 8 * multiplier
    else 0
  | .tactical => ai.rand row col * 20 * multiplier
  | .balanced =>
    let centerDistance := |(row : ℚ) - 35/10| + |(col : ℚ) - 35/10|
    (7 - centerDistance) * 3 * multiplier

structure CaiMove where
  fromR : Int
  fromC : Int
  toR : Int
  toC : Int
  piece : Piece
deriving DecidableEq

/-- generateAllLegalMoves over the part_005 engine state. -/
def generateAllLegalMoves (g : Eng5.State5) (color : Color) : List CaiMove :=
  allSquares.flatMap (fun rc =>
    match bGet g.board rc.1 rc.2 with
    | some p =>
      if p.color = color then
        (Eng5.calculatePossibleMoves5 g rc.1 rc.2).map
          (fun t => ⟨rc.1, rc.2, t.1, t.2, p⟩)
      else []
    | none => [])

/-- evaluatePosition: material with positional bonus, mobility difference and
check bonus in fractional centipawns. -/
def evaluatePosition (ai : CaiCfg) (g : Eng5.State5) (color : Color) : ℚ :=
  let base :=
    (allSquares.map (fun rc =>
      match bGet g.board rc.1 rc.2 with
      | some p =>
        (if p.color = color then (pieceValues p.type : ℚ) else -(pieceValues p.type : ℚ))
          + getPositionalBonus ai p rc.1 rc.2 color
      | none => 0)).sum
  let myMoves := (generateAllLegalMoves g color).length
  let opponentMoves := (generateAllLegalMoves g color.opponent).length
  let withMobility := base + ((myMoves : ℚ) - (opponentMoves : ℚ)) * 10
  let withOwnCheck :=
    if Eng5.isKingInCheck5 g.board color then withMobility - 50 else withMobility
  if Eng5.isKingInCheck5 g.board color.opponent then withOwnCheck + 50 else withOwnCheck

/-- makeMove of the AI layer: plain relocation with piece and captured
snapshots in the undo record.  The origin holds a piece for every generated
move; the none branch is unreachable there. -/
def makeMove (g : Eng5.State5) (m : CaiMove) : Eng5.State5 × (Option Piece × Option Piece) :=
  match bGet g.board m.fromR m.fromC with
  | some p =>
    let captured := bGet g.board m.toR m.toC
    ({ g with board := bSet (bSet g.board m.toR m.toC (some p)) m.fromR m.fromC none },
     (captured, some p))
  | none => (g, (bGet g.board m.toR m.toC, none))

def unmakeMove (g : Eng5.State5) (m : CaiMove) (undo : Option Piece × Option Piece) :
    Eng5.State5 :=
  { g with board := bSet (bSet g.board m.fromR m.fromC undo.2) m.toR m.toC undo.1 }

/-- The inner loop of minimaxRecursive: negamax maximum over the moves; the
JS in-place make and unmake pair is modelled by scoring the made state. -/
def mmLoop (rec : Eng5.State5 → Color → JsNum ℚ) (g : Eng5.State5) (color : Color) :
    List CaiMove → JsNum ℚ → JsNum ℚ
  | [], best => best
  | m :: rest, best =>
    let gm := makeMove g m
    let score := (rec gm.1 color.opponent).jneg
    mmLoop rec g color rest (if best.jlt score then score else best)

/-- minimaxRecursive: leaf evaluation at depth zero; at positive depth, mate
and stalemate detection on an empty move list, else the negamax maximum. -/
def minimaxRecursive (ai : CaiCfg) (d : Nat) (g : Eng5.State5) (color : Color) : JsNum ℚ :=
  match d with
  | 0 => .fin (evaluatePosition ai g color)
  | depth + 1 =>
    let moves := generateAllLegalMoves g color
    if moves.isEmpty then
      if Eng5.isKingInCheck5 g.board color then
        .fin (-99999 + (5 - ((depth + 1 : Nat) : ℚ)))
      else .fin 0
    else
      mmLoop (fun g2 c2 => minimaxRecursive ai depth g2 c2) g color moves .ninf
termination_by structural d

end Cai

namespace SLE

def pieceValues : PieceType → Int
  | .pawn => 100
  | .knight => 320
  | .bishop => 330
  | .rook => 500
  | .queen => 900
  | .king => 20000

def pawnTable : List (List Int) := Sys.pawnTable

def knightTable : List (List Int) := Sys.knightTable

def bishopTable : List (List Int) := Sys.bishopTable

def rookTable : List (List Int) := Sys.rookTable

def queenTable : List (List Int) := Sys.queenTable

def kingMiddlegameTable : List (List Int) := Sys.kingTable

def kingEndgameTable : List (List Int) :=
  [[-50, -40, -30, -20, -20, -30, -40, -50],
   [-30, -20, -10, 0, 0, -10, -20, -30],
   [-30, -10, 20, 30, 30, 20, -10, -30],
   [-30, -10, 30, 40, 40, 30, -10, -30],
   [-30, -10, 30, 40, 40, 30, -10, -30],
   [-30, -10, 20, 30, 30, 20, -10, -30],
   [-30, -30, 0, 0, 0, 0, -30, -30],
   [-50, -30, -30, -30, -30, -30, -30, -50]]

structure SMove where
  fromR : Int
  fromC : Int
  toR : Int
  toC : Int
  piece : Piece
deriving DecidableEq

def isValidSquare (r c : Int) : Bool := inB r c

def isSquareEmpty (b : Board) (r c : Int) : Bool :=
  isValidSquare r c && (bGet b r c).isNone

def isOpponentPiece (b : Board) (r c : Int) (opp : Color) : Bool :=
  isValidSquare r c &&
    (match bGet b r c with
     | some p => p.color = opp
     | none => false)

/-- addSlidingMoves: the same push-until-blocked ray walk as the
addDirectionalMoves closures of the other engines. -/
def addSlidingMoves (b : Board) (row col : Int) (dirs : List (Int × Int)) (opp : Color) :
    List (Int × Int) :=
  dirs.flatMap (fun d => Core.rayFrom b opp (row + d.1) (col + d.2) d.1 d.2 8)

def knightOffsetsW : List (Int × Int) :=
  [(-2, -1), (-2, 1), (-1, -2), (-1, 2), (1, -2), (1, 2), (2, -1), (2, 1)]

def kingOffsetsW : List (Int × Int) :=
  [(-1, -1), (-1, 0), (-1, 1), (0, -1), (0, 1), (1, -1), (1, 0), (1, 1)]

/-- calculatePossibleMoves of the worker engine: pseudo-legal moves with no
castling and no en passant; the pawn double push is gated on the start row. -/
def calculatePossibleMoves (b : Board) (row col : Int) : List (Int × Int) :=
  match bGet b row col with
  | none => []
  | some piece =>
    let opp := piece.color.opponent
    match piece.type with
    | .pawn =>
      let direction : Int := if piece.color = Color.white then -1 else 1
      let startRow : Int := if piece.color = Color.white then 6 else 1
      let fwd :=
        if isSquareEmpty b (row + direction) col then
          (row + direction, col) ::
            (if row = startRow ∧ isSquareEmpty b (row + 2 * direction) col then
              [(row + 2 * direction, col)]
            else [])
        else []
      fwd ++
        (if isOpponentPiece b (row + direction) (col - 1) opp then
          [(row + direction, col - 1)]
        else []) ++
        (if isOpponentPiece b (row + direction) (col + 1) opp then
          [(row + direction, col + 1)]
        else [])
    | .rook =>
      addSlidingMoves b row col [(-1, 0), (1, 0), (0, -1), (0, 1)] opp
    | .knight =>
      knightOffsetsW.filterMap (fun (d : Int × Int) =>
        let r := row + d.1
        let c := col + d.2
        if isValidSquare r c && (isSquareEmpty b r c || isOpponentPiece b r c opp) then
          some (r, c)
        else none)
    | .bishop =>
      addSlidingMoves b row col [(-1, -1), (-1, 1), (1, -1), (1, 1)] opp
    | .queen =>
      addSlidingMoves b row col
        [(-1, -1), (-1, 0), (-1, 1), (0, -1), (0, 1), (1, -1), (1, 0), (1, 1)] opp
    | .king =>
      kingOffsetsW.filterMap (fun (d : Int × Int) =>
        let r := row + d.1
        let c := col + d.2
        if isValidSquare r c && (isSquareEmpty b r c || isOpponentPiece b r c opp) then
          some (r, c)
        else none)

/-- One direction of addSlidingAttacks: push every square up to and including
the first occupied one. -/
def slideAttack (b : Board) : Int → Int → Int → Int → Nat → List (Int × Int)
  | _, _, _, _, 0 => []
  | r, c, dr, dc, fuel + 1 =>
    if inB r c then
      (r, c) ::
        (if (bGet b r c).isSome then [] else slideAttack b (r + dr) (c + dc) dr dc fuel)
    else []

def addSlidingAttacks (b : Board) (row col : Int) (dirs : List (Int × Int)) :
    List (Int × Int) :=
  dirs.flatMap (fun d => slideAttack b (row + d.1) (col + d.2) d.1 d.2 8)

def getAttackSquares (b : Board) (row col : Int) : List (Int × Int) :=
  match bGet b row col with
  | none => []
  | some piece =>
    match piece.type with
    | .pawn =>
      let direction : Int := if piece.color = Color.white then -1 else 1
      ((if isValidSquare (row + direction) (col - 1) then [(row + direction, col - 1)] else []) ++
       (if isValidSquare (row + direction) (col + 1) then [(row + direction, col + 1)] else []))
    | .rook => addSlidingAttacks b row col [(-1, 0), (1, 0), (0, -1), (0, 1)]
    | .knight =>
      knightOffsetsW.filterMap (fun (d : Int × Int) =>
        let r := row + d.1
        let c := col + d.2
        if isValidSquare r c then some (r, c) else none)
    | .bishop => addSlidingAttacks b row col [(-1, -1), (-1, 1), (1, -1), (1, 1)]
    | .queen =>
      addSlidingAttacks b row col
        [(-1, -1), (-1, 0), (-1, 1), (0, -1), (0, 1), (1, -1), (1, 0), (1, 1)]
    | .king =>
      kingOffsetsW.filterMap (fun (d : Int × Int) =>
        let r := row + d.1
        let c := col + d.2
        if isValidSquare r c then some (r, c) else none)

def squareAttackedBy (b : Board) (row col : Int) (attackerColor : Color) : Bool :=
  allSquares.any (fun rc =>
    match bGet b rc.1 rc.2 with
    | some p => p.color = attackerColor && (getAttackSquares b rc.1 rc.2).contains (row, col)
    | none => false)

/-- isKingInCheck of the worker: the same row-major king scan as Core
findKing; with no king it silently answers false. -/
def isKingInCheck (b : Board) (color : Color) : Bool :=
  match Core.findKing b color with
  | none => false
  | some rc => squareAttackedBy b rc.1 rc.2 color.opponent

def isMoveLegal (b : Board) (m : SMove) (color : Color) : Bool :=
  let b1 := bSet b m.toR m.toC (bGet b m.fromR m.fromC)
  let b2 := bSet b1 m.fromR m.fromC none
  !isKingInCheck b2 color

def generateAllLegalMoves (b : Board) (color : Color) : List SMove :=
  allSquares.flatMap (fun rc =>
    match bGet b rc.1 rc.2 with
    | some p =>
      if p.color = color then
        (calculatePossibleMoves b rc.1 rc.2).filterMap (fun t =>
          let m : SMove := ⟨rc.1, rc.2, t.1, t.2, p⟩
          if isMoveLegal b m color then some m else none)
      else []
    | none => [])

def makeMove (b : Board) (m : SMove) : Board × Option Piece :=
  let captured := bGet b m.toR m.toC
  (bSet (bSet b m.toR m.toC (bGet b m.fromR m.fromC)) m.fromR m.fromC none, captured)

def unmakeMove (b : Board) (m : SMove) (captured : Option Piece) : Board :=
  bSet (bSet b m.fromR m.fromC (bGet b m.toR m.toC)) m.toR m.toC captured

def getPositionalValue (p : Piece) (r c : Int) (isEndgame : Bool) : Int :=
  let row : Int := if p.color = Color.white then r else 7 - r
  match p.type with
  | .pawn => Sys.tGet pawnTable row c
  | .knight => Sys.tGet knightTable row c
  | .bishop => Sys.tGet bishopTable row c
  | .rook => Sys.tGet rookTable row c
  | .queen => Sys.tGet queenTable row c
  | .king => Sys.tGet (if isEndgame then kingEndgameTable else kingMiddlegameTable) row c

def evaluateKingSafety (b : Board) (kingPos : Int × Int) (color : Color) : Int :=
  let opp := color.opponent
  (([(-1 : Int), 0, 1].flatMap (fun dr => [(-1 : Int), 0, 1].map (fun dc => (dr, dc)))).map
    (fun d =>
      let r := kingPos.1 + d.1
      let c := kingPos.2 + d.2
      if inB r c ∧ squareAttackedBy b r c opp then (-20 : Int) else 0)).sum

def evaluatePawnStructure (b : Board) (color : Color) : Int :=
  let pawns := allSquares.filter (fun rc =>
    match bGet b rc.1 rc.2 with
    | some p => p.type = PieceType.pawn && p.color = color
    | none => false)
  (pawns.map (fun pw =>
    let doubled := (pawns.filter (fun q => q.2 = pw.2 ∧ q.1 ≠ pw.1)).length
    let hasSupport := pawns.any (fun q => (q.2 - pw.2).natAbs = 1)
    (0 : Int) - (doubled : Int) * 10 + (if hasSupport then 0 else (-20 : Int)))).sum

/-- The material and position scan of evaluate: score, running material and
the last seen king squares, accumulated square by square in row-major order
exactly as the JS loop does (the endgame switch reads the running total
before the current piece is added). -/
def evalFold (b : Board) (color : Color) :
    Int × Int × Option (Int × Int) × Option (Int × Int) :=
  allSquares.foldl (fun acc rc =>
    match bGet b rc.1 rc.2 with
    | none => acc
    | some p =>
      let pieceValue := pieceValues p.type
      let posValue := getPositionalValue p rc.1 rc.2 (decide (2000 < acc.2.1))
      let tm := acc.2.1 + pieceValue
      let wk := if p.type = PieceType.king ∧ p.color = Color.white then some rc else acc.2.2.1
      let bk := if p.type = PieceType.king ∧ p.color = Color.black then some rc else acc.2.2.2
      let sc :=
        if p.color = color then acc.1 + pieceValue + posValue
        else acc.1 - (pieceValue + posValue)
      (sc, tm, wk, bk)) (0, 0, none, none)

def evaluate (b : Board) (color : Color) : Int :=
  let f := evalFold b color
  let myMobility := (generateAllLegalMoves b color).length
  let oppMobility := (generateAllLegalMoves b color.opponent).length
  let score1 := f.1 + ((myMobility : Int) - (oppMobility : Int)) * 10
  let score2 :=
    match f.2.2.1, f.2.2.2 with
    | some wkp, some bkp =>
      let myKingPos := if color = Color.white then wkp else bkp
      let oppKingPos := if color = Color.white then bkp else wkp
      score1 + evaluateKingSafety b myKingPos color
        - evaluateKingSafety b oppKingPos color.opponent
    | _, _ => score1
  score2 + evaluatePawnStructure b color

/-- The MVV-LVA ordering score of one move on the given board: captures score
victim value minus attacker value, anything else scores zero. -/
def moveOrderScore (b : Board) (m : SMove) : Int :=
  match bGet b m.toR m.toC with
  | some cap => pieceValues cap.type - pieceValues m.piece.type
  | none => 0

/-- orderMoves: a stable sort by descending ordering score, modelling the JS
comparator scoreB minus scoreA under the (stable) Array sort. -/
def orderMoves (b : Board) (moves : List SMove) : List SMove :=
  List.insertionSort (fun x y => moveOrderScore b y ≤ moveOrderScore b x) moves

def generateCaptures (b : Board) (color : Color) : List SMove :=
  (generateAllLegalMoves b color).filter (fun m => (bGet b m.toR m.toC).isSome)

/-- The capture loop of quiescenceSearch with the recursive call abstracted;
delta pruning skips a capture whose best-case swing cannot reach alpha, a
score of at least beta cuts off, otherwise alpha ratchets upward. -/
def qLoop (rec : Board → Color → JsNum Int → JsNum Int → JsNum Int) (b : Board)
    (color : Color) (standPat : Int) (beta : JsNum Int) :
    List SMove → JsNum Int → JsNum Int
  | [], alpha => alpha
  | m :: rest, alpha =>
    let captureValue :=
      match bGet b m.toR m.toC with
      | some cap => pieceValues cap.type
      | none => 0
    if (JsNum.fin (standPat + captureValue + 200)).jlt alpha then
      qLoop rec b color standPat beta rest alpha
    else
      let b1 := (makeMove b m).1
      let score := (rec b1 color.opponent beta.jneg alpha.jneg).jneg
      if beta.jle score then beta
      else qLoop rec b color standPat beta rest (alpha.jmax score)

/-- quiescenceSearch, with its own depth counter turned into fuel: the JS
counts 0 up to a cap of 6 more plies, which is exactly fuel 7 minus depth. -/
def quiescence (f : Nat) (b : Board) (color : Color) (alpha beta : JsNum Int) : JsNum Int :=
  match f with
  | 0 => .fin (evaluate b color)
  | fuel + 1 =>
    let standPat := evaluate b color
    if beta.jle (.fin standPat) then beta
    else
      let alpha1 := alpha.jmax (.fin standPat)
      let captures := generateCaptures b color
      let sortedCaptures := orderMoves b captures
      qLoop (fun b2 c2 a2 be2 => quiescence fuel b2 c2 a2 be2) b color standPat beta
        sortedCaptures alpha1
termination_by structural f

/-- The move loop of search: negamax with the alpha-beta window, returning
beta at a cutoff and the final alpha otherwise. -/
def sLoop (rec : Board → Color → JsNum Int → JsNum Int → JsNum Int) (b : Board)
    (color : Color) (beta : JsNum Int) : List SMove → JsNum Int → JsNum Int
  | [], alpha => alpha
  | m :: rest, alpha =>
    let b1 := (makeMove b m).1
    let score := (rec b1 color.opponent beta.jneg alpha.jneg).jneg
    if beta.jle score then beta
    else sLoop rec b color beta rest (alpha.jmax score)

/-- search: quiescence at depth zero; mate distance or stalemate zero on an
empty legal move list; otherwise the ordered negamax loop. -/
def search (d : Nat) (b : Board) (color : Color) (alpha beta : JsNum Int) : JsNum Int :=
  match d with
  | 0 => quiescence 7 b color alpha beta
  | depth + 1 =>
    let moves := generateAllLegalMoves b color
    if moves.isEmpty then
      if isKingInCheck b color then
        .fin (-9999 + (4 - ((depth + 1 : Nat) : Int)))
      else .fin 0
    else
      let sortedMoves := orderMoves b moves
      sLoop (fun b2 c2 a2 be2 => search depth b2 c2 a2 be2) b color beta sortedMoves alpha
termination_by structural d

end SLE

/-! ### Concrete fixtures and harness definitions -/

/-- Well-formed board: eight rows of eight squares, as every board built by
the JS constructors is. -/
def WF (b : Board) : Prop :=
  b.length = 8 ∧ ∀ row ∈ b, row.length = 8

instance : DecidablePred WF := fun b => by
  unfold WF
  infer_instance

/-- Shorthand for an occupied square. -/
def pc (t : PieceType) (c : Color) (hm : Bool) : Option Piece :=
  some ⟨t, c, hm⟩

def emptyRow : List (Option Piece) := List.replicate 8 none

/-- A row with pieces at the listed columns and empty squares elsewhere. -/
def rowOf (l : List (Int × Option Piece)) : List (Option Piece) :=
  (List.range 8).map (fun c => (l.lookup (c : Int)).join)

/-- The standard starting board. -/
def initBoard : Board :=
  [ [pc .rook .black false, pc .knight .black false, pc .bishop .black false,
     pc .queen .black false, pc .king .black false, pc .bishop .black false,
     pc .knight .black false, pc .rook .black false],
    List.replicate 8 (pc .pawn .black false),
    emptyRow, emptyRow, emptyRow, emptyRow,
    List.replicate 8 (pc .pawn .white false),
    [pc .rook .white false, pc .knight .white false, pc .bishop .white false,
     pc .queen .white false, pc .king .white false, pc .bishop .white false,
     pc .knight .white false, pc .rook .white false] ]

/-- A fresh ChessEngineCore state (default configuration). -/
def initState : Core.State :=
  { board := initBoard, turn := .white, moveHistory := [], capturedWhite := [],
    capturedBlack := [], check := false, gameOver := false, lastMove := none,
    promotingPawn := none, moveCount := 0, checksGiven := 0, castlesPerformed := 0,
    enPassantCount := 0, allowUndo := true, maxMoveHistory := 100 }

/-- One apply-undo pair: run movePiece; when it succeeded, undo it. -/
def pairStep (s : Core.State) (q : Int × Int × Int × Int) : Core.State :=
  let r := Core.movePiece s q.1 q.2.1 q.2.2.1 q.2.2.2
  if r.2 = Core.MoveResult.invalid then r.1 else (Core.undoMove r.1).1

/-- A sequence of apply-undo pairs from a starting state. -/
def applyUndoPairs (s : Core.State) (qs : List (Int × Int × Int × Int)) : Core.State :=
  qs.foldl pairStep s

/-- The C1 scenario: White to move; White king a5, White pawn e5, Black pawn
just double-pushed to f5, Black rook h5, Black king h8.  In board
coordinates: king (3,0), pawn (3,4), black pawn (3,5), black rook (3,7). -/
def epBoard : Board :=
  [ rowOf [(7, pc .king .black true)],
    emptyRow, emptyRow,
    rowOf [(0, pc .king .white true), (4, pc .pawn .white true),
           (5, pc .pawn .black true), (7, pc .rook .black true)],
    emptyRow, emptyRow, emptyRow, emptyRow ]

def epState : Core.State :=
  { initState with
      board := epBoard,
      lastMove := some ({ fromRow := 1, fromCol := 5, toRow := 3, toCol := 5,
                          piece := ⟨.pawn, .black, false⟩, captured := none,
                          boardState := initBoard } : Core.CoreMove) }

/-- The C4 scenario: a White pawn on a7 about to promote on a8. -/
def promoBoard : Board :=
  [ rowOf [(7, pc .king .black true)],
    rowOf [(0, pc .pawn .white true)],
    emptyRow, emptyRow, emptyRow, emptyRow, emptyRow,
    rowOf [(4, pc .king .white true)] ]

def promoState : Core.State := { initState with board := promoBoard }

/-- A fresh part_005 engine state over a given board. -/
def mkState5 (b : Board) : Eng5.State5 :=
  { board := b, turn := .white, moveHistory := [], capturedWhite := [],
    capturedBlack := [], check := false, gameOver := false, lastMove := none,
    promotingPawn := none, moveCount := 0, checksGiven := 0, castlesPerformed := 0,
    enPassantCount := 0 }

def promoState5 : Eng5.State5 := mkState5 promoBoard

/-- A part_005 state already in the promotion-pending sub-state: the White
pawn has just reached a8. -/
def pendingBoard : Board :=
  [ rowOf [(0, pc .pawn .white true), (7, pc .king .black true)],
    emptyRow, emptyRow, emptyRow, emptyRow, emptyRow, emptyRow,
    rowOf [(4, pc .king .white true)] ]

def pendingState5 : Eng5.State5 :=
  { mkState5 pendingBoard with promotingPawn := some (0, 0) }

/-- The C6 mate scenario: Black king a8 is smothered by the White queen on b7
guarded by the White king on c6; Black has no legal move and is in check. -/
def mateBoard : Board :=
  [ rowOf [(0, pc .king .black true)],
    rowOf [(1, pc .queen .white true)],
    rowOf [(2, pc .king .white true)],
    emptyRow, emptyRow, emptyRow, emptyRow, emptyRow ]

def mateState5 : Eng5.State5 := { mkState5 mateBoard with turn := .black }

/-- A board with no king at all, for the malformed-state claim. -/
def kinglessState : Core.State := { initState with board := List.replicate 8 emptyRow }

/-- A small position for the round-trip and determinism witnesses: two kings
and a White rook. -/
def smallBoard : Board :=
  [ rowOf [(7, pc .king .black true)],
    emptyRow, emptyRow, emptyRow, emptyRow, emptyRow,
    rowOf [(0, pc .rook .white true)],
    rowOf [(4, pc .king .white true)] ]

def smallState : Core.State := { initState with board := smallBoard }

/-- The C7 scenario: a White queen that can capture a defended Black pawn,
and a quiet White knight move. -/
def c7Board : Board :=
  [ rowOf [(7, pc .king .black true)],
    emptyRow, emptyRow, emptyRow, emptyRow, emptyRow,
    rowOf [(0, pc .pawn .black true)],
    rowOf [(0, pc .queen .white true), (4, pc .king .white true),
           (6, pc .knight .white true)] ]

def c7Capture : SLE.SMove := ⟨7, 0, 6, 0, ⟨.queen, .white, true⟩⟩

def c7Quiet : SLE.SMove := ⟨7, 6, 5, 5, ⟨.knight, .white, true⟩⟩

/-! ### Order lemmas for JsNum -/

namespace JsNum

variable {α : Type} [LinearOrder α]

theorem jle_refl (a : JsNum α) : jle a a = true := by
  cases a <;> simp [jle]

theorem jle_total (a b : JsNum α) : jle a b = true ∨ jle b a = true := by
  cases a <;> cases b <;> simp [jle]
  exact le_total _ _

theorem jle_trans {a b c : JsNum α} (h1 : jle a b = true) (h2 : jle b c = true) :
    jle a c = true := by
  cases a <;> cases b <;> cases c <;> simp_all [jle]
  exact le_trans h1 h2

theorem jle_antisymm {a b : JsNum α} (h1 : jle a b = true) (h2 : jle b a = true) :
    a = b := by
  cases a <;> cases b <;> simp_all [jle]
  exact le_antisymm h1 h2

theorem jle_ninf {a : JsNum α} (h : jle a ninf = true) : a = ninf := by
  cases a <;> simp_all [jle]

theorem pinf_jle {a : JsNum α} (h : jle pinf a = true) : a = pinf := by
  cases a <;> simp_all [jle]

theorem jlt_update_eq_jmax (a b : JsNum α) : (if jlt a b then b else a) = jmax a b := by
  by_cases h1 : jle b a = true <;> by_cases h2 : jle a b = true <;>
    simp [jlt, jmax, h1, h2]
  · exact jle_antisymm h2 h1
  · rcases jle_total a b with h | h
    · exact absurd h h2
    · exact absurd h h1

theorem jlt_update_eq_jmin (a b : JsNum α) : (if jlt b a then b else a) = jmin a b := by
  by_cases h : jle a b = true <;> simp [jlt, jmin, h]

theorem jmax_comm (a b : JsNum α) : jmax a b = jmax b a := by
  unfold jmax
  by_cases h1 : jle a b = true <;> by_cases h2 : jle b a = true <;> simp [h1, h2]
  · exact (jle_antisymm h1 h2).symm
  · rcases jle_total a b with h | h
    · exact absurd h h1
    · exact absurd h h2

theorem jmax_assoc (a b c : JsNum α) : jmax (jmax a b) c = jmax a (jmax b c) := by
  unfold jmax
  by_cases h1 : jle a b = true <;> by_cases h2 : jle b c = true
  · simp [h1, h2, jle_trans h1 h2]
  · simp [h1, h2]
  · simp [h1, h2]
  · have hcb : jle c b = true := (jle_total b c).resolve_left h2
    have hba : jle b a = true := (jle_total a b).resolve_left h1
    have hca : jle c a = true := jle_trans hcb hba
    simp [h1, h2]
    by_cases h3 : jle a c = true
    · simp [h3]
      exact jle_antisymm hca h3
    · simp [h3]

theorem jmin_comm (a b : JsNum α) : jmin a b = jmin b a := by
  unfold jmin
  by_cases h1 : jle a b = true <;> by_cases h2 : jle b a = true <;> simp [h1, h2]
  · exact jle_antisymm h1 h2
  · rcases jle_total a b with h | h
    · exact absurd h h1
    · exact absurd h h2

theorem jmin_assoc (a b c : JsNum α) : jmin (jmin a b) c = jmin a (jmin b c) := by
  unfold jmin
  by_cases h1 : jle a b = true <;> by_cases h2 : jle b c = true
  · simp [h1, h2, jle_trans h1 h2]
  · simp [h1, h2]
  · simp [h1, h2]
  · have hcb : jle c b = true := (jle_total b c).resolve_left h2
    have hba : jle b a = true := (jle_total a b).resolve_left h1
    have hca : jle c a = true := jle_trans hcb hba
    simp [h1, h2]
    by_cases h3 : jle a c = true
    · simp [h3]
      exact (jle_antisymm h3 hca).symm
    · simp [h3]

theorem jmax_right_comm (z x y : JsNum α) : (z.jmax x).jmax y = (z.jmax y).jmax x := by
  rw [jmax_assoc, jmax_assoc, jmax_comm x y]

theorem jmin_right_comm (z x y : JsNum α) : (z.jmin x).jmin y = (z.jmin y).jmin x := by
  rw [jmin_assoc, jmin_assoc, jmin_comm x y]

theorem jle_jmax_left (a b : JsNum α) : jle a (jmax a b) = true := by
  by_cases h : jle a b = true <;> simp [jmax, h, jle_refl]

end JsNum

/-! ### Pointwise board lemmas -/

theorem inB_iff {r c : Int} : inB r c = true ↔ 0 ≤ r ∧ r < 8 ∧ 0 ≤ c ∧ c < 8 := by
  simp [inB]

theorem bGet_out {b : Board} {r c : Int} (h : inB r c = false) : bGet b r c = none := by
  simp [bGet, h]

theorem bGet_pos {b : Board} {r c : Int} (h : inB r c = true) :
    bGet b r c = (b.getD r.toNat []).getD c.toNat none := by
  simp [bGet, h]

theorem bSet_pos {b : Board} {r c : Int} (h : inB r c = true) (v : Option Piece) :
    bSet b r c v = b.set r.toNat ((b.getD r.toNat []).set c.toNat v) := by
  simp [bSet, h]

theorem getD_set_self {β : Type} (l : List β) {i : Nat} (a d : β) (h : i < l.length) :
    (l.set i a).getD i d = a := by
  simp [List.getD_eq_getElem?_getD, List.getElem?_set_self, h]

theorem getD_set_ne {β : Type} (l : List β) {i j : Nat} (h : i ≠ j) (a d : β) :
    (l.set i a).getD j d = l.getD j d := by
  simp [List.getD_eq_getElem?_getD, List.getElem?_set_ne h]

theorem length_bSet (b : Board) (r c : Int) (v : Option Piece) :
    (bSet b r c v).length = b.length := by
  unfold bSet
  split <;> simp

theorem rowD_length {b : Board} (hw : WF b) {r : Nat} (h : r < 8) :
    (b.getD r []).length = 8 := by
  obtain ⟨hl, hrows⟩ := hw
  have hr : r < b.length := by omega
  rw [List.getD_eq_getElem b [] hr]
  exact hrows _ (List.getElem_mem hr)

theorem WF_bSet {b : Board} (hw : WF b) (r c : Int) (v : Option Piece) :
    WF (bSet b r c v) := by
  refine ⟨by rw [length_bSet, hw.1], ?_⟩
  intro row hrow
  unfold bSet at hrow
  split at hrow
  · rcases List.mem_or_eq_of_mem_set hrow with h | h
    · exact hw.2 row h
    · subst h
      rw [List.length_set]
      have h8 := inB_iff.mp (by assumption)
      exact rowD_length hw (by omega)
  · exact hw.2 row hrow

theorem bGet_bSet_same {b : Board} (hw : WF b) {r c : Int} (h : inB r c = true)
    (v : Option Piece) : bGet (bSet b r c v) r c = v := by
  have h8 := inB_iff.mp h
  have hbl := hw.1
  have hrn : r.toNat < b.length := by omega
  have hcn : c.toNat < (b.getD r.toNat []).length := by
    rw [rowD_length hw (by omega)]
    omega
  rw [bSet_pos h, bGet_pos h, getD_set_self _ _ _ (by simpa using hrn),
    getD_set_self _ _ _ hcn]

theorem bGet_bSet_ne {b : Board} (hw : WF b) {r c r' c' : Int}
    (h : ¬(r = r' ∧ c = c')) (v : Option Piece) :
    bGet (bSet b r c v) r' c' = bGet b r' c' := by
  by_cases hin : inB r c = true
  · by_cases hin' : inB r' c' = true
    · have h8 := inB_iff.mp hin
      have h8' := inB_iff.mp hin'
      have hbl := hw.1
      rw [bSet_pos hin, bGet_pos hin', bGet_pos hin']
      by_cases hrr : r = r'
      · subst hrr
        have hcc : c ≠ c' := fun hc => h ⟨rfl, hc⟩
        have hccn : c.toNat ≠ c'.toNat := by omega
        have hrn : r.toNat < b.length := by omega
        rw [getD_set_self _ _ _ (by simpa using hrn), getD_set_ne _ hccn]
      · have hrrn : r.toNat ≠ r'.toNat := by omega
        rw [getD_set_ne _ hrrn]
    · rw [bGet_out (by simpa using hin'), bGet_out (by simpa using hin')]
  · unfold bSet
    rw [if_neg (by simpa using hin)]

theorem board_ext {a b : Board} (hwa : WF a) (hwb : WF b)
    (h : ∀ r c : Int, inB r c = true → bGet a r c = bGet b r c) : a = b := by
  apply List.ext_getElem (by rw [hwa.1, hwb.1])
  intro i hi hi'
  have hi8 : i < 8 := by
    have := hwa.1
    omega
  have hrowa : a[i].length = 8 := hwa.2 _ (List.getElem_mem hi)
  have hrowb : b[i].length = 8 := hwb.2 _ (List.getElem_mem hi')
  apply List.ext_getElem (by omega)
  intro j hj hj'
  have hj8 : j < 8 := by omega
  have hIn : inB (i : Int) (j : Int) = true := by
    rw [inB_iff]
    refine ⟨by omega, by exact_mod_cast hi8, by omega, by exact_mod_cast hj8⟩
  have hq := h (i : Int) (j : Int) hIn
  rw [bGet_pos hIn, bGet_pos hIn] at hq
  have ha : ((a.getD (i : Int).toNat []).getD (j : Int).toNat none) = a[i][j] := by
    rw [Int.toNat_ofNat, Int.toNat_ofNat, List.getD_eq_getElem a [] hi,
      List.getD_eq_getElem _ _ (by omega)]
  have hb : ((b.getD (i : Int).toNat []).getD (j : Int).toNat none) = b[i][j] := by
    rw [Int.toNat_ofNat, Int.toNat_ofNat, List.getD_eq_getElem b [] hi',
      List.getD_eq_getElem _ _ (by omega)]
  rw [ha, hb] at hq
  exact hq

theorem bSet_out {b : Board} {r c : Int} (h : inB r c = false) (v : Option Piece) :
    bSet b r c v = b := by
  simp [bSet, h]

attribute [ext] Core.State

theorem bGet_some_inB {b : Board} {r c : Int} {p : Piece}
    (h : bGet b r c = some p) : inB r c = true := by
  by_contra hc
  rw [bGet_out (by simpa using hc)] at h
  cases h

/-- The System-layer unmake restores the board, the turn, the last move and
the check flag exactly as they were before the matching make. -/
theorem sys_make_undo (s : Core.State) (m : Sys.SysMove) (u : Sys.SysUndo)
    (hw : WF s.board) (h : (Sys.makeMove s m).2 = some u) :
    Sys.undoMove (Sys.makeMove s m).1 m u = s := by
  rcases hb : bGet s.board m.fromR m.fromC with _ | piece
  · simp [Sys.makeMove, hb] at h
  · have hbf : inB m.fromR m.fromC = true := bGet_some_inB hb
    simp only [Sys.makeMove, hb] at h ⊢
    injection h with h'
    subst h'
    set b0 := s.board with hb0
    set b1 := bSet b0 m.toR m.toC (some { piece with hasMoved := true }) with hb1
    set b2 := bSet b1 m.fromR m.fromC none with hb2
    have w1 : WF b1 := WF_bSet hw _ _ _
    have w2 : WF b2 := WF_bSet w1 _ _ _
    simp only [Sys.undoMove]
    set c1 := bSet b2 m.fromR m.fromC (some piece) with hc1
    set c2 := bSet c1 m.toR m.toC (bGet b0 m.toR m.toC) with hc2
    have wc1 : WF c1 := WF_bSet w2 _ _ _
    have wc2 : WF c2 := WF_bSet wc1 _ _ _
    have hcf : bGet c2 m.fromR m.fromC = some piece := by
      by_cases hft : m.toR = m.fromR ∧ m.toC = m.fromC
      · rw [hc2, hft.1, hft.2, bGet_bSet_same wc1 hbf]
        exact hb
      · rw [hc2, bGet_bSet_ne wc1 hft, hc1, bGet_bSet_same w2 hbf]
    rw [hcf]
    have hpe : ({ piece with hasMoved := piece.hasMoved } : Piece) = piece := rfl
    have hboard : bSet c2 m.fromR m.fromC (some { piece with hasMoved := piece.hasMoved })
        = b0 := by
      apply board_ext (WF_bSet wc2 _ _ _) hw
      intro r c hin
      by_cases hqf : m.fromR = r ∧ m.fromC = c
      · rw [← hqf.1, ← hqf.2, bGet_bSet_same wc2 hbf, hpe, hb]
      · rw [bGet_bSet_ne wc2 hqf]
        by_cases hqt : m.toR = r ∧ m.toC = c
        · rw [hc2, ← hqt.1, ← hqt.2,
            bGet_bSet_same wc1 (by rw [hqt.1, hqt.2]; exact hin)]
        · rw [hc2, bGet_bSet_ne wc1 hqt, hc1, bGet_bSet_ne w2 hqf, hb2,
            bGet_bSet_ne w1 hqf, hb1, bGet_bSet_ne hw hqt]
    ext <;> simp [hboard]

/-! ### ChessEngineCore movePiece and undoMove facts -/

theorem pushCaptured_moveHistory (s : Core.State) (p : Piece) :
    (Core.pushCaptured s p).moveHistory = s.moveHistory := by
  unfold Core.pushCaptured
  split <;> rfl

theorem pushCaptured_allowUndo (s : Core.State) (p : Piece) :
    (Core.pushCaptured s p).allowUndo = s.allowUndo := by
  unfold Core.pushCaptured
  split <;> rfl

theorem pushCaptured_maxMoveHistory (s : Core.State) (p : Piece) :
    (Core.pushCaptured s p).maxMoveHistory = s.maxMoveHistory := by
  unfold Core.pushCaptured
  split <;> rfl

theorem pushCaptured_turn (s : Core.State) (p : Piece) :
    (Core.pushCaptured s p).turn = s.turn := by
  unfold Core.pushCaptured
  split <;> rfl

theorem pushCaptured_promotingPawn (s : Core.State) (p : Piece) :
    (Core.pushCaptured s p).promotingPawn = s.promotingPawn := by
  unfold Core.pushCaptured
  split <;> rfl

theorem executeCastling_pres (s : Core.State) (fr fc tr tc : Int) :
    (Core.executeCastling s fr fc tr tc).moveHistory = s.moveHistory ∧
    (Core.executeCastling s fr fc tr tc).allowUndo = s.allowUndo ∧
    (Core.executeCastling s fr fc tr tc).maxMoveHistory = s.maxMoveHistory ∧
    (Core.executeCastling s fr fc tr tc).turn = s.turn ∧
    (Core.executeCastling s fr fc tr tc).promotingPawn = s.promotingPawn := by
  simp [Core.executeCastling]

theorem executeEnPassant_pres (s : Core.State) (fr fc tr tc : Int) :
    (Core.executeEnPassant s fr fc tr tc).moveHistory = s.moveHistory ∧
    (Core.executeEnPassant s fr fc tr tc).allowUndo = s.allowUndo ∧
    (Core.executeEnPassant s fr fc tr tc).maxMoveHistory = s.maxMoveHistory ∧
    (Core.executeEnPassant s fr fc tr tc).turn = s.turn ∧
    (Core.executeEnPassant s fr fc tr tc).promotingPawn = s.promotingPawn := by
  unfold Core.executeEnPassant
  refine ⟨?_, ?_, ?_, ?_, ?_⟩ <;>
    · dsimp only
      split <;>
        simp [pushCaptured_moveHistory, pushCaptured_allowUndo,
          pushCaptured_maxMoveHistory, pushCaptured_turn, pushCaptured_promotingPawn]

theorem executeCastling_moveHistory (s : Core.State) (fr fc tr tc : Int) :
    (Core.executeCastling s fr fc tr tc).moveHistory = s.moveHistory :=
  (executeCastling_pres s fr fc tr tc).1

theorem executeCastling_allowUndo (s : Core.State) (fr fc tr tc : Int) :
    (Core.executeCastling s fr fc tr tc).allowUndo = s.allowUndo :=
  (executeCastling_pres s fr fc tr tc).2.1

theorem executeCastling_maxMoveHistory (s : Core.State) (fr fc tr tc : Int) :
    (Core.executeCastling s fr fc tr tc).maxMoveHistory = s.maxMoveHistory :=
  (executeCastling_pres s fr fc tr tc).2.2.1

theorem executeCastling_turn (s : Core.State) (fr fc tr tc : Int) :
    (Core.executeCastling s fr fc tr tc).turn = s.turn :=
  (executeCastling_pres s fr fc tr tc).2.2.2.1

theorem executeEnPassant_moveHistory (s : Core.State) (fr fc tr tc : Int) :
    (Core.executeEnPassant s fr fc tr tc).moveHistory = s.moveHistory :=
  (executeEnPassant_pres s fr fc tr tc).1

theorem executeEnPassant_allowUndo (s : Core.State) (fr fc tr tc : Int) :
    (Core.executeEnPassant s fr fc tr tc).allowUndo = s.allowUndo :=
  (executeEnPassant_pres s fr fc tr tc).2.1

theorem executeEnPassant_maxMoveHistory (s : Core.State) (fr fc tr tc : Int) :
    (Core.executeEnPassant s fr fc tr tc).maxMoveHistory = s.maxMoveHistory :=
  (executeEnPassant_pres s fr fc tr tc).2.2.1

theorem executeEnPassant_turn (s : Core.State) (fr fc tr tc : Int) :
    (Core.executeEnPassant s fr fc tr tc).turn = s.turn :=
  (executeEnPassant_pres s fr fc tr tc).2.2.2.1

theorem getLast?_concat_tail {X : List Core.CoreMove} (md : Core.CoreMove)
    (h : X ≠ []) : ((X ++ [md]).tail).getLast? = some md := by
  cases X with
  | nil => exact absurd rfl h
  | cons a t => simp [List.getLast?_concat]

theorem getLast?_evict_general (X : List Core.CoreMove) (md : Core.CoreMove) (c : Bool)
    (hc : c = true → X ≠ []) :
    (if c then (X ++ [md]).tail else X ++ [md]).getLast? = some md := by
  split
  · exact getLast?_concat_tail md (hc (by assumption))
  · exact List.getLast?_concat _

/-- The invalid result of movePiece comes with an unchanged state. -/
theorem movePiece_invalid_state (s : Core.State) (fr fc tr tc : Int)
    (h : (Core.movePiece s fr fc tr tc).2 = .invalid) :
    (Core.movePiece s fr fc tr tc).1 = s := by
  unfold Core.movePiece at h ⊢
  rcases hb : bGet s.board fr fc with _ | piece
  · simp [hb]
  · simp only [hb] at h ⊢
    by_cases hcol : piece.color = s.turn
    · simp only [hcol, ne_eq, not_true_eq_false, if_false, ite_not] at h ⊢
      by_cases hmem : (tr, tc) ∈ Core.calculatePossibleMoves s fr fc
      · simp only [hmem, if_true] at h ⊢
        exfalso
        revert h
        split <;> split <;> (try split) <;> simp
      · simp [hmem]
    · simp [hcol]

/-- Every successful movePiece pushes a history entry whose board snapshot is
the pre-move board, keeps it as the newest entry even across FIFO eviction,
and leaves the undo configuration unchanged. -/
theorem movePiece_success_facts (s : Core.State) (fr fc tr tc : Int)
    (h : (Core.movePiece s fr fc tr tc).2 ≠ .invalid) :
    (Core.movePiece s fr fc tr tc).1.allowUndo = s.allowUndo ∧
    ∃ md, (Core.movePiece s fr fc tr tc).1.moveHistory.getLast? = some md ∧
      md.boardState = s.board := by
  unfold Core.movePiece at h ⊢
  rcases hb : bGet s.board fr fc with _ | piece
  · simp [hb] at h
  · simp only [hb] at h ⊢
    by_cases hcol : piece.color = s.turn
    · simp only [hcol, ne_eq, not_true_eq_false, if_false, ite_not] at h ⊢
      by_cases hmem : (tr, tc) ∈ Core.calculatePossibleMoves s fr fc
      · simp only [hmem, if_true] at h ⊢
        constructor
        · dsimp only
          split <;> split <;> (try split) <;> (try split)
          all_goals
            simp [executeCastling_pres, executeEnPassant_pres, pushCaptured_allowUndo]
        · refine ⟨⟨fr, fc, tr, tc, piece, bGet s.board tr tc, s.board⟩, ?_, rfl⟩
          dsimp only
          apply getLast?_evict_general
          intro hcond hX
          rw [hX] at hcond
          simp at hcond
      · simp [hmem] at h
    · simp [hcol] at h

/-- undoMove restores exactly the board snapshot of the newest history entry. -/
theorem undoMove_board (s : Core.State) (md : Core.CoreMove)
    (h1 : s.allowUndo = true) (h2 : s.moveHistory.getLast? = some md) :
    (Core.undoMove s).1.board = md.boardState := by
  have hne : s.moveHistory ≠ [] := by
    intro hx
    rw [hx] at h2
    simp at h2
  unfold Core.undoMove
  rw [if_neg (by simp [h1, hne]), h2]
  dsimp only
  split
  · unfold Core.removeFirstCaptured
    split <;> rfl
  · rfl

theorem undoMove_allowUndo (s : Core.State) :
    (Core.undoMove s).1.allowUndo = s.allowUndo := by
  unfold Core.undoMove
  split
  · rfl
  · split
    · rfl
    · dsimp only
      split
      · unfold Core.removeFirstCaptured
        split <;> rfl
      · rfl

/-- One apply-undo pair preserves the board and the undo permission. -/
theorem pairStep_board (s : Core.State) (q : Int × Int × Int × Int)
    (h : s.allowUndo = true) :
    (pairStep s q).board = s.board ∧ (pairStep s q).allowUndo = true := by
  unfold pairStep
  dsimp only
  by_cases hres : (Core.movePiece s q.1 q.2.1 q.2.2.1 q.2.2.2).2 = Core.MoveResult.invalid
  · rw [if_pos hres, movePiece_invalid_state _ _ _ _ _ hres]
    exact ⟨rfl, h⟩
  · rw [if_neg hres]
    obtain ⟨hau, md, hlast, hbs⟩ := movePiece_success_facts s _ _ _ _ hres
    have hau' : (Core.movePiece s q.1 q.2.1 q.2.2.1 q.2.2.2).1.allowUndo = true := by
      rw [hau, h]
    constructor
    · rw [undoMove_board _ md hau' hlast, hbs]
    · rw [undoMove_allowUndo, hau']

/-- C2: every sequence of apply-undo pairs returns the ChessEngineCore board
to its pre-sequence state (undoMove restores the stored pre-move board copy,
including capture and special-move effects), and the search-layer make and
unmake pair of ChessEngineSystem restores the engine state exactly after each
node visit. -/
theorem c2_apply_undo_roundtrip :
    (∀ (s : Core.State) (qs : List (Int × Int × Int × Int)), s.allowUndo = true →
      (applyUndoPairs s qs).board = s.board) ∧
    (∀ (s : Core.State) (m : Sys.SysMove) (u : Sys.SysUndo), WF s.board →
      (Sys.makeMove s m).2 = some u →
      Sys.undoMove (Sys.makeMove s m).1 m u = s) := by
  constructor
  · intro s qs h
    induction qs generalizing s with
    | nil => rfl
    | cons q rest ih =>
      obtain ⟨hb, ha⟩ := pairStep_board s q h
      calc (applyUndoPairs s (q :: rest)).board
          = (applyUndoPairs (pairStep s q) rest).board := rfl
        _ = (pairStep s q).board := ih _ ha
        _ = s.board := hb
  · intro s m u hw h
    exact sys_make_undo s m u hw h

/-- Witness for C2 at a concrete position and move. -/
theorem c2_witness :
    (applyUndoPairs smallState [(6, 0, 5, 0)]).board = smallState.board ∧
    Sys.undoMove (Sys.makeMove smallState ⟨6, 0, 5, 0⟩).1 ⟨6, 0, 5, 0⟩
      ⟨⟨.rook, .white, true⟩, none, .white, none, false⟩ = smallState :=
  ⟨c2_apply_undo_roundtrip.1 smallState [(6, 0, 5, 0)] rfl,
   c2_apply_undo_roundtrip.2 smallState ⟨6, 0, 5, 0⟩
     ⟨⟨.rook, .white, true⟩, none, .white, none, false⟩ (by decide) (by decide)⟩

/-- C3: a move request with an empty origin, a piece of the side not to move,
or a destination outside the legal move set is answered by the invalid
sentinel and leaves the entire ChessEngineCore state unchanged. -/
theorem c3_invalid_move_sentinel (s : Core.State) (fr fc tr tc : Int)
    (h : bGet s.board fr fc = none ∨
      (∃ p, bGet s.board fr fc = some p ∧ p.color ≠ s.turn) ∨
      (tr, tc) ∉ Core.calculatePossibleMoves s fr fc) :
    Core.movePiece s fr fc tr tc = (s, Core.MoveResult.invalid) := by
  unfold Core.movePiece
  rcases hb : bGet s.board fr fc with _ | p
  · simp
  · rcases h with h1 | ⟨q, hq, hqn⟩ | h3
    · rw [hb] at h1
      cases h1
    · rw [hb] at hq
      injection hq with he
      subst he
      simp [hqn]
    · by_cases hcol : p.color = s.turn
      · simp [hcol, h3]
      · simp [hcol]

/-- Witness for C3: a move from an empty square of the starting position. -/
theorem c3_witness : Core.movePiece initState 4 4 4 5 = (initState, Core.MoveResult.invalid) :=
  c3_invalid_move_sentinel initState 4 4 4 5 (Or.inl (by decide))

/-- C5: checkmate is exactly the check flag with no legal move for the side
to move, stalemate is exactly no legal move without the check flag, and the
two classifications are mutually exclusive. -/
theorem c5_checkmate_stalemate (s : Core.State) :
    (Core.isCheckmate s = true ↔ s.check = true ∧ Core.hasNoLegalMoves s = true) ∧
    (Core.isStalemate s = true ↔ s.check = false ∧ Core.hasNoLegalMoves s = true) ∧
    ¬(Core.isCheckmate s = true ∧ Core.isStalemate s = true) := by
  unfold Core.isCheckmate Core.isStalemate
  cases hc : s.check <;> simp [hc]

/-- C1: the concrete rank-pin scenario on which the generated en passant
capture, once applied, leaves the moving side's own king attacked.  The move
(2,5) is in the generator output for the pawn on (3,4), movePiece accepts it,
and the resulting board has the White king in check from the rook on h5. -/
theorem c1_en_passant_leaves_king_attacked :
    ((2 : Int), (5 : Int)) ∈ Core.calculatePossibleMoves epState 3 4 ∧
    (Core.movePiece epState 3 4 2 5).2 = Core.MoveResult.valid ∧
    Core.isKingInCheck (Core.movePiece epState 3 4 2 5).1.board Color.white = true := by
  refine ⟨by decide, by decide, by decide⟩

/-- C10: completePromotion with no pending promotion returns immediately and
changes nothing, in ChessEngineCore and in the part_005 ChessEngine alike. -/
theorem c10_complete_promotion_noop :
    (∀ (s : Core.State) (pt : PieceType), s.promotingPawn = none →
      Core.completePromotion s pt = s) ∧
    (∀ (g : Eng5.State5) (pt : PieceType), g.promotingPawn = none →
      Eng5.completePromotion5 g pt = g) := by
  constructor
  · intro s pt h
    unfold Core.completePromotion
    rw [h]
  · intro g pt h
    unfold Eng5.completePromotion5
    rw [h]

/-- Witness for C10 on fresh engine states. -/
theorem c10_witness :
    Core.completePromotion initState PieceType.queen = initState ∧
    Eng5.completePromotion5 (mkState5 initBoard) PieceType.rook = mkState5 initBoard :=
  ⟨c10_complete_promotion_noop.1 initState PieceType.queen rfl,
   c10_complete_promotion_noop.2 (mkState5 initBoard) PieceType.rook rfl⟩

/-- C9 (amended): with the king absent, check detection silently answers
false and the king-safety term of the evaluator silently answers zero; no
operation fails loudly. -/
theorem c9_missing_king_silent :
    (∀ (b : Board) (color : Color), Core.findKing b color = none →
      Core.isKingInCheck b color = false) ∧
    (∀ (b : Board) (color : Color), Core.findKing b color = none →
      SLE.isKingInCheck b color = false) ∧
    (∀ (cfg : Sys.SysCfg) (s : Core.State) (color : Color),
      Sys.findKingP s color = none ∨ Sys.findKingP s color.opponent = none →
      Sys.evaluateKingSafety cfg s color = 0) := by
  refine ⟨?_, ?_, ?_⟩
  · intro b color h
    unfold Core.isKingInCheck
    rw [h]
  · intro b color h
    unfold SLE.isKingInCheck
    rw [h]
  · intro cfg s color h
    unfold Sys.evaluateKingSafety
    rcases h with h | h
    · rw [h]
    · rcases hk : Sys.findKingP s color with _ | k
      · rfl
      · rw [h]

/-- C9 counterexample: on a kingless board both check detectors return the
ordinary value false and the evaluator returns an ordinary score, rather
than asserting or raising. -/
theorem c9_counterexample :
    Core.findKing kinglessState.board Color.white = none ∧
    Core.isKingInCheck kinglessState.board Color.white = false ∧
    SLE.isKingInCheck kinglessState.board Color.white = false ∧
    Sys.findKingP kinglessState Color.white = none ∧
    Sys.evaluateKingSafety ⟨Personality.balanced⟩ kinglessState Color.white = 0 := by
  refine ⟨by decide, by decide, by decide, by decide, by decide⟩

/-- Witness for the amended C9 on the kingless board for Black. -/
theorem c9_witness :
    Core.isKingInCheck kinglessState.board Color.black = false ∧
    SLE.isKingInCheck kinglessState.board Color.black = false ∧
    Sys.evaluateKingSafety ⟨Personality.balanced⟩ kinglessState Color.black = 0 :=
  ⟨c9_missing_king_silent.1 _ _ (by decide),
   c9_missing_king_silent.2.1 _ _ (by decide),
   c9_missing_king_silent.2.2 _ _ _ (Or.inl (by decide))⟩

/-- C7 (amended): orderMoves is a permutation of its input sorted by weakly
decreasing MVV-LVA score, where captures score victim minus attacker and
non-captures score zero; hence winning captures precede quiet moves, but a
losing capture scores below zero and sorts after the quiet moves. -/
theorem c7_order_moves_sorted (b : Board) (moves : List SLE.SMove) :
    (SLE.orderMoves b moves).Perm moves ∧
    (SLE.orderMoves b moves).Pairwise
      (fun x y => SLE.moveOrderScore b y ≤ SLE.moveOrderScore b x) := by
  constructor
  · exact List.perm_insertionSort _ _
  · haveI : IsTotal SLE.SMove
        (fun x y => SLE.moveOrderScore b y ≤ SLE.moveOrderScore b x) :=
      ⟨fun _ _ => le_total _ _⟩
    haveI : IsTrans SLE.SMove
        (fun x y => SLE.moveOrderScore b y ≤ SLE.moveOrderScore b x) :=
      ⟨fun _ _ _ h1 h2 => le_trans h2 h1⟩
    exact List.sorted_insertionSort _ _

/-- C7 counterexample: a losing capture (queen takes defended pawn, score
minus 800) is ordered after a quiet knight move, so captures do not all
precede non-captures. -/
theorem c7_counterexample :
    SLE.orderMoves c7Board [c7Capture, c7Quiet] = [c7Quiet, c7Capture] ∧
    (bGet c7Board c7Capture.toR c7Capture.toC).isSome = true ∧
    (bGet c7Board c7Quiet.toR c7Quiet.toC).isSome = false := by
  refine ⟨by decide, by decide, by decide⟩

/-! ### part_005 ChessEngine promotion facts -/

theorem pushCaptured5_turn (g : Eng5.State5) (c : Color) (p : Piece) :
    (Eng5.pushCaptured5 g c p).turn = g.turn := by
  unfold Eng5.pushCaptured5
  split <;> rfl

theorem pushCaptured5_promotingPawn (g : Eng5.State5) (c : Color) (p : Piece) :
    (Eng5.pushCaptured5 g c p).promotingPawn = g.promotingPawn := by
  unfold Eng5.pushCaptured5
  split <;> rfl

theorem checkGameStatus_turn (g : Eng5.State5) :
    (Eng5.checkGameStatus g).turn = g.turn := by
  unfold Eng5.checkGameStatus
  dsimp only
  split <;> split <;> rfl

theorem checkGameStatus_board (g : Eng5.State5) :
    (Eng5.checkGameStatus g).board = g.board := by
  unfold Eng5.checkGameStatus
  dsimp only
  split <;> split <;> rfl

theorem checkGameStatus_promotingPawn (g : Eng5.State5) :
    (Eng5.checkGameStatus g).promotingPawn = g.promotingPawn := by
  unfold Eng5.checkGameStatus
  dsimp only
  split <;> split <;> rfl

theorem checkGameStatus_check (g : Eng5.State5) :
    (Eng5.checkGameStatus g).check = Eng5.isKingInCheck5 g.board g.turn := by
  unfold Eng5.checkGameStatus
  dsimp only
  split <;> split <;> rfl

/-- C4 (amended): in the part_005 ChessEngine a promoting move enters the
promotion-pending sub-state without advancing the turn, and completePromotion
(with any requested piece type, the set is not validated) flips the turn and
recomputes the check status; in ChessEngineCore, by contrast, the promoting
move itself advances the turn while entering the pending sub-state, and its
completePromotion only replaces the piece. -/
theorem c4_promotion_pending_amended :
    (∀ (g : Eng5.State5) (fr fc tr tc : Int) (p : Piece),
      bGet g.board fr fc = some p → p.type = PieceType.pawn →
      ((p.color = Color.white ∧ tr = 0) ∨ (p.color = Color.black ∧ tr = 7)) →
      (Eng5.movePiece5 g fr fc tr tc).2 = Eng5.Res5.promotion ∧
      (Eng5.movePiece5 g fr fc tr tc).1.turn = g.turn ∧
      (Eng5.movePiece5 g fr fc tr tc).1.promotingPawn = some (tr, tc)) ∧
    (∀ (g : Eng5.State5) (pt : PieceType) (rc : Int × Int),
      g.promotingPawn = some rc →
      (Eng5.completePromotion5 g pt).turn = g.turn.opponent ∧
      (Eng5.completePromotion5 g pt).promotingPawn = none ∧
      (Eng5.completePromotion5 g pt).check =
        Eng5.isKingInCheck5 (Eng5.completePromotion5 g pt).board g.turn.opponent) ∧
    (∀ (s : Core.State) (fr fc tr tc : Int) (p : Piece),
      bGet s.board fr fc = some p → p.color = s.turn →
      (tr, tc) ∈ Core.calculatePossibleMoves s fr fc → p.type = PieceType.pawn →
      (tr = 0 ∨ tr = 7) →
      (Core.movePiece s fr fc tr tc).2 = Core.MoveResult.promotion ∧
      (Core.movePiece s fr fc tr tc).1.turn = s.turn.opponent ∧
      (Core.movePiece s fr fc tr tc).1.promotingPawn = some (tr, tc)) := by
  refine ⟨?_, ?_, ?_⟩
  · intro g fr fc tr tc p hb hpt hpr
    have hking : ¬(p.type = PieceType.king ∧ (tc - fc).natAbs = 2) := by
      simp [hpt]
    have hpromo : p.type = PieceType.pawn ∧
        ((p.color = Color.white ∧ tr = 0) ∨ (p.color = Color.black ∧ tr = 7)) :=
      ⟨hpt, hpr⟩
    unfold Eng5.movePiece5
    rw [hb]
    dsimp only
    rw [if_neg hking, if_pos hpromo]
    refine ⟨rfl, ?_, rfl⟩
    dsimp only
    split
    · rw [pushCaptured5_turn]
    · split
      · split <;> simp [pushCaptured5_turn]
      · rfl
  · intro g pt rc hpp
    unfold Eng5.completePromotion5
    rw [hpp]
    dsimp only
    refine ⟨?_, ?_, ?_⟩
    · rw [checkGameStatus_turn]
      rfl
    · rw [checkGameStatus_promotingPawn]
      rfl
    · rw [checkGameStatus_check, checkGameStatus_board]
      rfl
  · intro s fr fc tr tc p hb hcol hmem hpt hpr
    have hking : ¬(p.type = PieceType.king ∧ (tc - fc).natAbs = 2) := by
      simp [hpt]
    unfold Core.movePiece
    rw [hb]
    dsimp only
    rw [if_neg (by simp [hcol]), if_neg (by simp [hmem]), if_neg hking,
      if_pos ⟨hpt, hpr⟩]
    refine ⟨rfl, ?_, rfl⟩
    dsimp only
    split
    · simp [executeEnPassant_turn]
    · split
      · rw [pushCaptured_turn]
      · rfl

/-- C4 counterexample: in ChessEngineCore a concrete promoting move reports
the promotion-pending sub-state yet the side to move has already advanced
from White to Black before completePromotion was ever called. -/
theorem c4_counterexample :
    (Core.movePiece promoState 1 0 0 0).2 = Core.MoveResult.promotion ∧
    (Core.movePiece promoState 1 0 0 0).1.promotingPawn = some (0, 0) ∧
    promoState.turn = Color.white ∧
    (Core.movePiece promoState 1 0 0 0).1.turn = Color.black := by
  refine ⟨by decide, by decide, by decide, by decide⟩

/-- Witness for the amended C4 at concrete promotion positions. -/
theorem c4_witness :
    ((Eng5.movePiece5 promoState5 1 0 0 0).2 = Eng5.Res5.promotion ∧
     (Eng5.movePiece5 promoState5 1 0 0 0).1.turn = promoState5.turn ∧
     (Eng5.movePiece5 promoState5 1 0 0 0).1.promotingPawn = some (0, 0)) ∧
    ((Eng5.completePromotion5 pendingState5 PieceType.queen).turn =
       pendingState5.turn.opponent ∧
     (Eng5.completePromotion5 pendingState5 PieceType.queen).promotingPawn = none ∧
     (Eng5.completePromotion5 pendingState5 PieceType.queen).check =
       Eng5.isKingInCheck5 (Eng5.completePromotion5 pendingState5 PieceType.queen).board
         pendingState5.turn.opponent) ∧
    ((Core.movePiece promoState 1 0 0 0).2 = Core.MoveResult.promotion ∧
     (Core.movePiece promoState 1 0 0 0).1.turn = promoState.turn.opponent ∧
     (Core.movePiece promoState 1 0 0 0).1.promotingPawn = some (0, 0)) :=
  ⟨c4_promotion_pending_amended.1 promoState5 1 0 0 0 ⟨.pawn, .white, true⟩
     (by decide) rfl (Or.inl ⟨rfl, rfl⟩),
   c4_promotion_pending_amended.2.1 pendingState5 .queen (0, 0) rfl,
   c4_promotion_pending_amended.2.2 promoState 1 0 0 0 ⟨.pawn, .white, true⟩
     (by decide) (by decide) (by decide) rfl (Or.inl rfl)⟩

/-- C6 (amended): at every search node with nonzero remaining depth at which
the side to move has zero legal moves, the worker search returns the mate
score -9999 + (4 - depth) when in check (negative, of magnitude at least
9000, and strictly decreasing in the remaining depth, so that shallower
mates outrank deeper ones after negamax negation) and exactly 0 otherwise;
the GAMEOPT minimax does the same with -99999 + (5 - depth).  At nodes with
remaining depth zero both searches return the quiescence or leaf evaluation
instead, even when the side to move has no legal move. -/
theorem c6_mate_scores_amended :
    (∀ (b : Board) (color : Color) (d : Nat) (alpha beta : JsNum Int), d ≠ 0 →
      SLE.generateAllLegalMoves b color = [] →
      SLE.search d b color alpha beta =
        (if SLE.isKingInCheck b color then JsNum.fin (-9999 + (4 - (d : Int)))
         else JsNum.fin 0) ∧
      (-9999 + (4 - (d : Int)) < 0 ∧ 9000 ≤ (-9999 + (4 - (d : Int))).natAbs) ∧
      (∀ d2 : Nat, d < d2 → -9999 + (4 - (d2 : Int)) < -9999 + (4 - (d : Int)))) ∧
    (∀ (ai : Cai.CaiCfg) (g : Eng5.State5) (color : Color) (d : Nat), d ≠ 0 →
      Cai.generateAllLegalMoves g color = [] →
      Cai.minimaxRecursive ai d g color =
        (if Eng5.isKingInCheck5 g.board color then JsNum.fin (-99999 + (5 - (d : ℚ)))
         else JsNum.fin 0) ∧
      (-99999 + (5 - (d : ℚ)) < 0 ∧ (9000 : ℚ) ≤ |(-99999 + (5 - (d : ℚ)))|)) := by
  constructor
  · intro b color d alpha beta hd hmoves
    cases d with
    | zero => exact absurd rfl hd
    | succ dp =>
      refine ⟨?_, ⟨by omega, by omega⟩, fun d2 h2 => by omega⟩
      simp only [SLE.search, hmoves, List.isEmpty_nil, if_true]
  · intro ai g color d hd hmoves
    cases d with
    | zero => exact absurd rfl hd
    | succ dp =>
      have hdq : (0 : ℚ) ≤ ((dp + 1 : Nat) : ℚ) := by positivity
      refine ⟨?_, ?_, ?_⟩
      · simp only [Cai.minimaxRecursive, hmoves, List.isEmpty_nil, if_true]
      · push_cast
        push_cast at hdq
        linarith
      · rw [abs_of_neg (by push_cast; push_cast at hdq; linarith)]
        push_cast
        push_cast at hdq
        linarith

/-- C6 counterexample: the checkmated position with Black to move has zero
legal moves and Black in check, yet at a node with remaining depth zero the
search returns the quiescence evaluation, a value strictly between -9000 and
0, not a negative mate score of magnitude at least 9000. -/
theorem c6_counterexample :
    SLE.generateAllLegalMoves mateBoard Color.black = [] ∧
    SLE.isKingInCheck mateBoard Color.black = true ∧
    (SLE.search 0 mateBoard Color.black .ninf .pinf).jlt (.fin (-9000)) = false ∧
    (SLE.search 0 mateBoard Color.black .ninf .pinf).jlt (.fin 0) = true := by
  refine ⟨by decide, by decide, by decide, by decide⟩

/-- Witness for the amended C6 at the concrete mate position, depth 3. -/
theorem c6_witness :
    (SLE.search 3 mateBoard Color.black .ninf .pinf =
      (if SLE.isKingInCheck mateBoard Color.black
       then JsNum.fin (-9999 + (4 - (3 : Int))) else JsNum.fin 0)) ∧
    (Cai.minimaxRecursive ⟨Personality.balanced, fun _ _ => 0⟩ 3 mateState5 Color.black =
      (if Eng5.isKingInCheck5 mateState5.board Color.black
       then JsNum.fin (-99999 + (5 - (3 : ℚ))) else JsNum.fin 0)) :=
  ⟨by
    have h := (c6_mate_scores_amended.1 mateBoard Color.black 3 .ninf .pinf
      (by decide) (by decide)).1
    exact_mod_cast h,
   by
    have h := (c6_mate_scores_amended.2 ⟨Personality.balanced, fun _ _ => 0⟩ mateState5
      Color.black 3 (by decide) (by decide)).1
    exact_mod_cast h⟩

/-! ### Root search loop characterization -/

theorem JsNum.jlt_false_jle {α : Type} [LinearOrder α] {a b : JsNum α}
    (h : JsNum.jlt a b = false) : JsNum.jle b a = true := by
  simpa [JsNum.jlt] using h

theorem JsNum.jmax_eq_left_of_jle {α : Type} [LinearOrder α] {a b : JsNum α}
    (h : JsNum.jle b a = true) : a.jmax b = a := by
  by_cases h2 : JsNum.jle a b = true
  · unfold JsNum.jmax
    rw [if_pos h2]
    exact JsNum.jle_antisymm h h2
  · unfold JsNum.jmax
    rw [if_neg h2]

theorem JsNum.jmin_eq_left_of_jle {α : Type} [LinearOrder α] {a b : JsNum α}
    (h : JsNum.jle a b = true) : a.jmin b = a := by
  unfold JsNum.jmin
  rw [if_pos h]

theorem makeMove_ne_none_of_mem {s : Core.State} {color : Color} {m : Sys.SysMove}
    (hm : m ∈ Sys.getAllPossibleMoves s color) : (Sys.makeMove s m).2 ≠ none := by
  unfold Sys.getAllPossibleMoves at hm
  rw [List.mem_flatMap] at hm
  obtain ⟨rc, _, hmem⟩ := hm
  rcases hb : bGet s.board rc.1 rc.2 with _ | p
  · rw [hb] at hmem
    simp at hmem
  · rw [hb] at hmem
    dsimp only at hmem
    by_cases hc : p.color = color
    · rw [if_pos hc, List.mem_map] at hmem
      obtain ⟨t, _, ht⟩ := hmem
      unfold Sys.makeMove
      rw [← ht]
      dsimp only
      rw [hb]
      simp
    · rw [if_neg hc] at hmem
      simp at hmem

/-- Full description of the maximizing root loop: its best score is the jmax
fold of the per-move scores, a returned move attains the current best score,
and when no move was ever selected the accumulator was never beaten. -/
theorem rootLoopMax_spec (cfg : Sys.SysCfg) (depth : Nat) (s : Core.State) :
    ∀ (l : List Sys.SysMove) (bm : Option Sys.SysMove) (bs : JsNum ℚ),
    (∀ m ∈ l, (Sys.makeMove s m).2 ≠ none) →
    (∀ m0, bm = some m0 →
      Sys.minimax cfg (depth - 1) (Sys.makeMove s m0).1 false .ninf .pinf = bs) →
    ((Sys.rootLoop cfg depth true s l bm bs).2 =
      l.foldl (fun a m =>
        a.jmax (Sys.minimax cfg (depth - 1) (Sys.makeMove s m).1 false .ninf .pinf)) bs) ∧
    (∀ m0, (Sys.rootLoop cfg depth true s l bm bs).1 = some m0 →
      Sys.minimax cfg (depth - 1) (Sys.makeMove s m0).1 false .ninf .pinf =
        (Sys.rootLoop cfg depth true s l bm bs).2 ∧ (bm = some m0 ∨ m0 ∈ l)) ∧
    ((Sys.rootLoop cfg depth true s l bm bs).1 = none →
      bm = none ∧ (Sys.rootLoop cfg depth true s l bm bs).2 = bs ∧
      ∀ m ∈ l, JsNum.jle
        (Sys.minimax cfg (depth - 1) (Sys.makeMove s m).1 false .ninf .pinf) bs = true) := by
  intro l
  induction l with
  | nil =>
    intro bm bs _ hbm
    refine ⟨rfl, ?_, ?_⟩
    · intro m0 h0
      exact ⟨hbm m0 h0, Or.inl h0⟩
    · intro h0
      exact ⟨h0, rfl, by simp⟩
  | cons m rest ih =>
    intro bm bs hsucc hbm
    rcases hmk : Sys.makeMove s m with ⟨s1, u⟩
    rcases u with _ | u0
    · exact absurd (by rw [hmk]) (hsucc m (List.mem_cons_self m rest))
    · have hs1 : (Sys.makeMove s m).1 = s1 := by rw [hmk]
      simp only [Sys.rootLoop, hmk]
      set sc := Sys.minimax cfg (depth - 1) s1 (!true) JsNum.ninf JsNum.pinf with hsc
      simp only [if_true]
      have hscm : Sys.minimax cfg (depth - 1) (Sys.makeMove s m).1 false .ninf .pinf = sc := by
        rw [hs1, hsc]
        rfl
      have hsrest : ∀ m2 ∈ rest, (Sys.makeMove s m2).2 ≠ none :=
        fun m2 h2 => hsucc m2 (List.mem_cons_of_mem m h2)
      by_cases hlt : JsNum.jlt bs sc = true
      · rw [if_pos hlt]
        have hmaxeq : bs.jmax sc = sc := by
          rw [← JsNum.jlt_update_eq_jmax bs sc, if_pos hlt]
        obtain ⟨ih1, ih2, ih3⟩ := ih (some m) sc hsrest
          (by
            intro m0 h0
            injection h0 with h0e
            rw [← h0e, hscm])
        refine ⟨?_, ?_, ?_⟩
        · rw [ih1, List.foldl_cons, hscm, hmaxeq]
        · intro m0 h0
          obtain ⟨ha, hb2⟩ := ih2 m0 h0
          refine ⟨ha, ?_⟩
          rcases hb2 with hb2 | hb2
          · injection hb2 with hb2e
            exact Or.inr (hb2e ▸ List.mem_cons_self m rest)
          · exact Or.inr (List.mem_cons_of_mem m hb2)
        · intro h0
          exact absurd (ih3 h0).1 (by simp)
      · rw [if_neg hlt]
        have hle : JsNum.jle sc bs = true :=
          JsNum.jlt_false_jle (by simpa using hlt)
        have hmaxeq : bs.jmax sc = bs := JsNum.jmax_eq_left_of_jle hle
        obtain ⟨ih1, ih2, ih3⟩ := ih bm bs hsrest hbm
        refine ⟨?_, ?_, ?_⟩
        · rw [ih1, List.foldl_cons, hscm, hmaxeq]
        · intro m0 h0
          obtain ⟨ha, hb2⟩ := ih2 m0 h0
          exact ⟨ha, hb2.imp id (List.mem_cons_of_mem m)⟩
        · intro h0
          obtain ⟨ha, hb2, hc2⟩ := ih3 h0
          refine ⟨ha, hb2, ?_⟩
          intro m2 hm2
          rcases List.mem_cons.mp hm2 with hm2 | hm2
          · rw [hm2, hscm]
            exact hle
          · exact hc2 m2 hm2

/-- Full description of the minimizing root loop, mirroring rootLoopMax_spec. -/
theorem rootLoopMin_spec (cfg : Sys.SysCfg) (depth : Nat) (s : Core.State) :
    ∀ (l : List Sys.SysMove) (bm : Option Sys.SysMove) (bs : JsNum ℚ),
    (∀ m ∈ l, (Sys.makeMove s m).2 ≠ none) →
    (∀ m0, bm = some m0 →
      Sys.minimax cfg (depth - 1) (Sys.makeMove s m0).1 true .ninf .pinf = bs) →
    ((Sys.rootLoop cfg depth false s l bm bs).2 =
      l.foldl (fun a m =>
        a.jmin (Sys.minimax cfg (depth - 1) (Sys.makeMove s m).1 true .ninf .pinf)) bs) ∧
    (∀ m0, (Sys.rootLoop cfg depth false s l bm bs).1 = some m0 →
      Sys.minimax cfg (depth - 1) (Sys.makeMove s m0).1 true .ninf .pinf =
        (Sys.rootLoop cfg depth false s l bm bs).2 ∧ (bm = some m0 ∨ m0 ∈ l)) ∧
    ((Sys.rootLoop cfg depth false s l bm bs).1 = none →
      bm = none ∧ (Sys.rootLoop cfg depth false s l bm bs).2 = bs ∧
      ∀ m ∈ l, JsNum.jle bs
        (Sys.minimax cfg (depth - 1) (Sys.makeMove s m).1 true .ninf .pinf) = true) := by
  intro l
  induction l with
  | nil =>
    intro bm bs _ hbm
    refine ⟨rfl, ?_, ?_⟩
    · intro m0 h0
      exact ⟨hbm m0 h0, Or.inl h0⟩
    · intro h0
      exact ⟨h0, rfl, by simp⟩
  | cons m rest ih =>
    intro bm bs hsucc hbm
    rcases hmk : Sys.makeMove s m with ⟨s1, u⟩
    rcases u with _ | u0
    · exact absurd (by rw [hmk]) (hsucc m (List.mem_cons_self m rest))
    · have hs1 : (Sys.makeMove s m).1 = s1 := by rw [hmk]
      simp only [Sys.rootLoop, hmk]
      set sc := Sys.minimax cfg (depth - 1) s1 (!false) JsNum.ninf JsNum.pinf with hsc
      simp only [Bool.false_eq_true, if_false]
      have hscm : Sys.minimax cfg (depth - 1) (Sys.makeMove s m).1 true .ninf .pinf = sc := by
        rw [hs1, hsc]
        rfl
      have hsrest : ∀ m2 ∈ rest, (Sys.makeMove s m2).2 ≠ none :=
        fun m2 h2 => hsucc m2 (List.mem_cons_of_mem m h2)
      by_cases hlt : JsNum.jlt sc bs = true
      · rw [if_pos hlt]
        have hmineq : bs.jmin sc = sc := by
          rw [← JsNum.jlt_update_eq_jmin bs sc, if_pos hlt]
        obtain ⟨ih1, ih2, ih3⟩ := ih (some m) sc hsrest
          (by
            intro m0 h0
            injection h0 with h0e
            rw [← h0e, hscm])
        refine ⟨?_, ?_, ?_⟩
        · rw [ih1, List.foldl_cons, hscm, hmineq]
        · intro m0 h0
          obtain ⟨ha, hb2⟩ := ih2 m0 h0
          refine ⟨ha, ?_⟩
          rcases hb2 with hb2 | hb2
          · injection hb2 with hb2e
            exact Or.inr (hb2e ▸ List.mem_cons_self m rest)
          · exact Or.inr (List.mem_cons_of_mem m hb2)
        · intro h0
          exact absurd (ih3 h0).1 (by simp)
      · rw [if_neg hlt]
        have hle : JsNum.jle bs sc = true :=
          JsNum.jlt_false_jle (by simpa using hlt)
        have hmineq : bs.jmin sc = bs := JsNum.jmin_eq_left_of_jle hle
        obtain ⟨ih1, ih2, ih3⟩ := ih bm bs hsrest hbm
        refine ⟨?_, ?_, ?_⟩
        · rw [ih1, List.foldl_cons, hscm, hmineq]
        · intro m0 h0
          obtain ⟨ha, hb2⟩ := ih2 m0 h0
          exact ⟨ha, hb2.imp id (List.mem_cons_of_mem m)⟩
        · intro h0
          obtain ⟨ha, hb2, hc2⟩ := ih3 h0
          refine ⟨ha, hb2, ?_⟩
          intro m2 hm2
          rcases List.mem_cons.mp hm2 with hm2 | hm2
          · rw [hm2, hscm]
            exact hle
          · exact hc2 m2 hm2

theorem foldl_jmax_perm (f : Sys.SysMove → JsNum ℚ) {l l2 : List Sys.SysMove}
    (p : l.Perm l2) (init : JsNum ℚ) :
    l.foldl (fun a m => a.jmax (f m)) init = l2.foldl (fun a m => a.jmax (f m)) init :=
  p.foldl_eq' (fun x _ y _ z => JsNum.jmax_right_comm z (f x) (f y)) init

theorem foldl_jmin_perm (f : Sys.SysMove → JsNum ℚ) {l l2 : List Sys.SysMove}
    (p : l.Perm l2) (init : JsNum ℚ) :
    l.foldl (fun a m => a.jmin (f m)) init = l2.foldl (fun a m => a.jmin (f m)) init :=
  p.foldl_eq' (fun x _ y _ z => JsNum.jmin_right_comm z (f x) (f y)) init

/-- C8: getBestMoveMinMax computes the same best score on any two traversal
orders of the legal move list (the in-place shuffle of the generated list is
the only randomness, modelled as the explicit order argument), and any move it
returns is a legal move whose minimax score equals that best score, so two
invocations on identical state and depth agree on the score and can differ
only among moves attaining it. -/
theorem c8_best_score_deterministic (cfg : Sys.SysCfg) (s : Core.State) (color : Color)
    (depth : Nat) (l1 l2 : List Sys.SysMove)
    (h1 : l1.Perm (Sys.getAllPossibleMoves s color))
    (h2 : l2.Perm (Sys.getAllPossibleMoves s color)) :
    Sys.rootBestScore cfg s color depth l1 = Sys.rootBestScore cfg s color depth l2 ∧
    ∀ m, Sys.getBestMoveMinMaxL cfg s color depth l1 = some m →
      m ∈ Sys.getAllPossibleMoves s color ∧
      Sys.moveScore cfg s color depth m = Sys.rootBestScore cfg s color depth l1 := by
  have hli : ∀ m ∈ l1, (Sys.makeMove s m).2 ≠ none :=
    fun m hm => makeMove_ne_none_of_mem (h1.mem_iff.mp hm)
  have hl2i : ∀ m ∈ l2, (Sys.makeMove s m).2 ≠ none :=
    fun m hm => makeMove_ne_none_of_mem (h2.mem_iff.mp hm)
  have hp12 : l1.Perm l2 := h1.trans h2.symm
  cases color with
  | white =>
    obtain ⟨a1, b1, c1⟩ :=
      rootLoopMax_spec cfg depth s l1 none .ninf hli (fun m0 h0 => by cases h0)
    obtain ⟨a2, _, _⟩ :=
      rootLoopMax_spec cfg depth s l2 none .ninf hl2i (fun m0 h0 => by cases h0)
    refine ⟨?_, ?_⟩
    · show (Sys.rootLoop cfg depth true s l1 none .ninf).2 =
        (Sys.rootLoop cfg depth true s l2 none .ninf).2
      rw [a1, a2]
      exact foldl_jmax_perm _ hp12 _
    · intro m hm
      have hm1 : ((Sys.rootLoop cfg depth true s l1 none .ninf).1 <|> l1.head?) = some m := hm
      show m ∈ Sys.getAllPossibleMoves s Color.white ∧
        Sys.minimax cfg (depth - 1) (Sys.makeMove s m).1 false .ninf .pinf =
          (Sys.rootLoop cfg depth true s l1 none .ninf).2
      cases hr : (Sys.rootLoop cfg depth true s l1 none JsNum.ninf).1 with
      | some m0 =>
        rw [hr] at hm1
        simp only [Option.some_orElse] at hm1
        injection hm1 with hme
        subst hme
        obtain ⟨hsc2, hmem2⟩ := b1 m0 hr
        rcases hmem2 with h0 | h0
        · cases h0
        · exact ⟨h1.mem_iff.mp h0, hsc2⟩
      | none =>
        rw [hr] at hm1
        simp only [Option.none_orElse] at hm1
        have hmem : m ∈ l1 := List.mem_of_mem_head? hm1
        obtain ⟨_, hbs, hall⟩ := c1 hr
        have hninf := JsNum.jle_ninf (hall m hmem)
        exact ⟨h1.mem_iff.mp hmem, by rw [hbs, hninf]⟩
  | black =>
    obtain ⟨a1, b1, c1⟩ :=
      rootLoopMin_spec cfg depth s l1 none .pinf hli (fun m0 h0 => by cases h0)
    obtain ⟨a2, _, _⟩ :=
      rootLoopMin_spec cfg depth s l2 none .pinf hl2i (fun m0 h0 => by cases h0)
    refine ⟨?_, ?_⟩
    · show (Sys.rootLoop cfg depth false s l1 none .pinf).2 =
        (Sys.rootLoop cfg depth false s l2 none .pinf).2
      rw [a1, a2]
      exact foldl_jmin_perm _ hp12 _
    · intro m hm
      have hm1 : ((Sys.rootLoop cfg depth false s l1 none .pinf).1 <|> l1.head?) = some m := hm
      show m ∈ Sys.getAllPossibleMoves s Color.black ∧
        Sys.minimax cfg (depth - 1) (Sys.makeMove s m).1 true .ninf .pinf =
          (Sys.rootLoop cfg depth false s l1 none .pinf).2
      cases hr : (Sys.rootLoop cfg depth false s l1 none JsNum.pinf).1 with
      | some m0 =>
        rw [hr] at hm1
        simp only [Option.some_orElse] at hm1
        injection hm1 with hme
        subst hme
        obtain ⟨hsc2, hmem2⟩ := b1 m0 hr
        rcases hmem2 with h0 | h0
        · cases h0
        · exact ⟨h1.mem_iff.mp h0, hsc2⟩
      | none =>
        rw [hr] at hm1
        simp only [Option.none_orElse] at hm1
        have hmem : m ∈ l1 := List.mem_of_mem_head? hm1
        obtain ⟨_, hbs, hall⟩ := c1 hr
        have hpinf := JsNum.pinf_jle (hall m hmem)
        exact ⟨h1.mem_iff.mp hmem, by rw [hbs, hpinf]⟩

/-- Witness for the determinism claim: the root search at depth 1 on a
concrete position computes the same best score on the generated move order
and its reversal, and a returned move attains it. -/
theorem c8_witness :
    Sys.rootBestScore ⟨Personality.balanced⟩ smallState Color.white 1
        (Sys.getAllPossibleMoves smallState Color.white) =
      Sys.rootBestScore ⟨Personality.balanced⟩ smallState Color.white 1
        (Sys.getAllPossibleMoves smallState Color.white).reverse ∧
    ∀ m, Sys.getBestMoveMinMaxL ⟨Personality.balanced⟩ smallState Color.white 1
        (Sys.getAllPossibleMoves smallState Color.white) = some m →
      m ∈ Sys.getAllPossibleMoves smallState Color.white ∧
      Sys.moveScore ⟨Personality.balanced⟩ smallState Color.white 1 m =
        Sys.rootBestScore ⟨Personality.balanced⟩ smallState Color.white 1
          (Sys.getAllPossibleMoves smallState Color.white) :=
  c8_best_score_deterministic ⟨Personality.balanced⟩ smallState Color.white 1 _ _
    (List.Perm.refl _) (List.reverse_perm _)
